import Mathlib

/-!
Shallow embedding of the Kobo highlights importer's reconciliation engine:
the template renderer and date formatter (`src/template-engine.ts`), the
highlight processor (`appendHighlightsToNote`, `hashText`,
`extractExistingHighlights`, `processHighlights`, `generateFilename`) and the
chapter-table builder (`getBookChapterData`, `extractBookIdFromChapterId`).

Strings are modelled as Lean `String`s (lists of characters); the handful of
environment primitives the code uses (`new Date(...)` parsing, `parseFloat`,
`Date.prototype.toISOString`, `String.prototype.localeCompare`, URL parsing
inside `extractTitleFromPath`) are passed in as explicit function parameters,
since their behaviour lives in the JavaScript runtime, not in this repository.
-/

namespace KoboSpec

/-- JavaScript's whitespace class `\s`: ASCII whitespace plus the Unicode
space characters the regex engine recognises. -/
def isJsWs (c : Char) : Bool :=
  c = ' ' || c = '\t' || c = '\n' || c = '\r' ||
  c.toNat = 11 || c.toNat = 12 ||
  c.toNat = 0xa0 || c.toNat = 0x1680 ||
  (0x2000 ≤ c.toNat && c.toNat ≤ 0x200a) ||
  c.toNat = 0x2028 || c.toNat = 0x2029 || c.toNat = 0x202f ||
  c.toNat = 0x205f || c.toNat = 0x3000 || c.toNat = 0xfeff

/-- JavaScript's word-character class `\w`: letters, digits and underscore. -/
def isWordChar (c : Char) : Bool :=
  ('a' ≤ c && c ≤ 'z') || ('A' ≤ c && c ≤ 'Z') || ('0' ≤ c && c ≤ '9') || c = '_'

/-- `String.prototype.trim`: strip JS whitespace from both ends. -/
def jsTrimL (s : List Char) : List Char :=
  ((s.dropWhile isJsWs).reverse.dropWhile isJsWs).reverse

/-- Decimal digit character for a value below ten (as produced by
`Number.prototype.toString`). -/
def digitChar : Nat → Char
  | 0 => '0' | 1 => '1' | 2 => '2' | 3 => '3' | 4 => '4'
  | 5 => '5' | 6 => '6' | 7 => '7' | 8 => '8' | _ => '9'

/-- Decimal digits, most significant first; `fuel` bounds the recursion and
any value at least the digit count (such as `n + 1`) is enough. -/
def natDigitsAux : Nat → Nat → List Char
  | 0, _ => []
  | fuel + 1, n =>
    if n < 10 then [digitChar n]
    else natDigitsAux fuel (n / 10) ++ [digitChar (n % 10)]

/-- Decimal digits of a natural number, most significant first
(`Number.prototype.toString` on a nonnegative integer). -/
def natDigits (n : Nat) : List Char := natDigitsAux (n + 1) n

def natDigitsStr (n : Nat) : String := ⟨natDigits n⟩

/-- `Number.prototype.toString` on an integer value. -/
def intToStr (i : Int) : String :=
  if i < 0 then "-" ++ natDigitsStr i.natAbs else natDigitsStr i.natAbs

/-- `n.toString().padStart(2, '0')` as used by the date formatter's `pad`. -/
def pad2 (n : Nat) : String :=
  if n < 10 then "0" ++ natDigitsStr n else natDigitsStr n

/-- Does `pat` occur at the head of `s`? (prefix test used by the
first-occurrence search of `String.prototype.replace` with a string pattern). -/
def leadsWith : List Char → List Char → Bool
  | [], _ => true
  | _ :: _, [] => false
  | p :: ps, c :: cs => p = c && leadsWith ps cs

/-- Split `s` around the first occurrence of `pat`: returns the part before
the occurrence and the part after it, or `none` when `pat` never occurs. -/
def splitFirst (pat : List Char) : List Char → Option (List Char × List Char)
  | [] => if pat.isEmpty then some ([], []) else none
  | c :: rest =>
    if leadsWith pat (c :: rest) then some ([], (c :: rest).drop pat.length)
    else (splitFirst pat rest).map (fun pq => (c :: pq.1, pq.2))

/-- `String.prototype.replace` with a plain-string pattern: replace only the
first occurrence, or return the string unchanged when there is none. -/
def replaceFirstL (pat rep s : List Char) : List Char :=
  match splitFirst pat s with
  | some (p, q) => p ++ rep ++ q
  | none => s

def replaceFirst (pat rep s : String) : String :=
  ⟨replaceFirstL pat.data rep.data s.data⟩

-- ============================================================================
-- Date formatter (template-engine.ts, formatDate)
-- ============================================================================

/-- Components of a valid JavaScript `Date` as observed through the getters
`formatDate` uses. `getMonth` is 0–11 and `getDay` 0–6 on every valid date,
which the `Fin` types record. -/
structure JSDate where
  year : Int
  month : Fin 12
  day : Nat
  weekday : Fin 7
  hour : Nat
  minute : Nat
  second : Nat

def monthsEn : List String :=
  ["January", "February", "March", "April", "May", "June",
   "July", "August", "September", "October", "November", "December"]

def monthsIt : List String :=
  ["gennaio", "febbraio", "marzo", "aprile", "maggio", "giugno",
   "luglio", "agosto", "settembre", "ottobre", "novembre", "dicembre"]

def daysEn : List String :=
  ["Sunday", "Monday", "Tuesday", "Wednesday", "Thursday", "Friday", "Saturday"]

/-- The chained `.replace(...)` calls of `formatDate`, in source order:
`YYYY`, `MMMM` (Italian full month), `MMM` (English month, first three
letters), `MM`, `dddd`, `DD`, `HH`, `mm`, `ss`; each replaces only the first
occurrence of its token. -/
def applyTokens (d : JSDate) (format : String) : String :=
  replaceFirst "ss" (pad2 d.second)
    (replaceFirst "mm" (pad2 d.minute)
      (replaceFirst "HH" (pad2 d.hour)
        (replaceFirst "DD" (pad2 d.day)
          (replaceFirst "dddd" (daysEn.getD d.weekday.val "")
            (replaceFirst "MM" (pad2 (d.month.val + 1))
              (replaceFirst "MMM" (⟨((monthsEn.getD d.month.val "").data.take 3)⟩)
                (replaceFirst "MMMM" (monthsIt.getD d.month.val "")
                  (replaceFirst "YYYY" (intToStr d.year) format))))))))

/-- `formatDate` from `template-engine.ts`. `parse` stands for JavaScript's
`new Date(string)` followed by the `isNaN(date.getTime())` validity check:
it returns `none` exactly when the string does not parse as a valid date.
`dateStr = none` models both `null` and `undefined`; the guard `!dateStr`
is also true for the empty string. -/
def formatDate (parse : String → Option JSDate)
    (dateStr : Option String) (format : String) : String :=
  match dateStr with
  | none => ""
  | some s =>
    if s = "" then ""
    else
      match parse s with
      | none => s
      | some d => applyTokens d format

-- ============================================================================
-- Template renderer (template-engine.ts, renderTemplate / processConditionals)
-- ============================================================================

/-- A primitive value held by a `TemplateContext` field: a string or a number
(JavaScript numbers are modelled as rationals). -/
inductive Value where
  | vStr (s : String)
  | vNum (q : ℚ)
deriving DecidableEq

/-- A template context: lookup of a variable name, `none` modelling both
`undefined` (including unknown names) and `null`. -/
def Ctx := String → Option Value

/-- The truthiness test of `processConditionals`:
`value !== undefined && value !== null && value !== '' && value !== 0`. -/
def hasValue : Option Value → Bool
  | none => false
  | some (.vStr s) => !(s = "")
  | some (.vNum q) => !(q = 0)

/-- Left-pad a digit list with zeros to the given length. -/
def padZeros (len : Nat) (s : List Char) : List Char :=
  List.replicate (len - s.length) '0' ++ s

/-- Decimal rendering of a rational, modelling `String(number)` on the
exactly-representable short decimal values that reach template output
(integers and decimal fractions); a fraction needing more than 30 decimal
digits (never produced by this code's arithmetic on in-range data) falls back
to a marker digit string. -/
def ratToDecimalStr (q : ℚ) : String :=
  if q.den = 1 then intToStr q.num
  else
    let sign := if q < 0 then "-" else ""
    let a : ℚ := |q|
    let ip : Nat := a.floor.toNat
    let frac : ℚ := a - (a.floor : ℚ)
    match (List.range 30).find? (fun k => (frac * (10 : ℚ) ^ (k + 1)).den = 1) with
    | some k =>
      sign ++ natDigitsStr ip ++ "." ++
        ⟨padZeros (k + 1) (natDigits (frac * (10 : ℚ) ^ (k + 1)).num.toNat)⟩
    | none => sign ++ natDigitsStr ip ++ ".0"

/-- `String(value)` on a context value. -/
def valueToString : Value → String
  | .vStr s => s
  | .vNum q => ratToDecimalStr q

/-- Skip `\s*`. -/
def skipWs (s : List Char) : List Char := s.dropWhile isJsWs

/-- Match the literal characters `cs` at the head of `s`, returning the
remainder. -/
def expectChars : List Char → List Char → Option (List Char)
  | [], s => some s
  | _ :: _, [] => none
  | c :: cs, d :: s => if c = d then expectChars cs s else none

/-- Match `\w+`: one or more word characters, taken greedily. -/
def parseName (s : List Char) : Option (List Char × List Char) :=
  let nm := s.takeWhile isWordChar
  if nm.isEmpty then none else some (nm, s.drop nm.length)

/-- Match `\s+`: at least one whitespace character, taken greedily. -/
def skipWs1 : List Char → Option (List Char)
  | [] => none
  | c :: rest => if isJsWs c then some (rest.dropWhile isJsWs) else none

/-- The optional greedy group `(not\s+)` together with the rest of the
header `(\w+)\s*%\}`: read `not`, mandatory whitespace, then the variable
name up to `%}`. Fails whenever any of those parts fails, in which case the
regex engine abandons the group. -/
def parseNotBranch (s : List Char) : Option (String × List Char) := do
  let t ← expectChars ['n', 'o', 't'] s
  let t ← skipWs1 t
  let (nm, t) ← parseName t
  let t := skipWs t
  let t ← expectChars ['%', '}'] t
  pure ((⟨nm⟩ : String), t)

/-- Match the opening `\{%\s*if\s+(not\s+)?(\w+)\s*%\}` of the conditional
regex at the head of `s`, returning the negation flag, the variable name and
the remainder. Mirrors the regex engine's backtracking: the greedy optional
`not` group is tried first and abandoned — the word then being read as the
variable name — whenever the remainder of the header fails after it. -/
def parseIfHeaderAt (s : List Char) : Option (Bool × String × List Char) := do
  let s ← expectChars ['{', '%'] s
  let s := skipWs s
  let s ← expectChars ['i', 'f'] s
  let s ← skipWs1 s
  match parseNotBranch s with
  | some (nm, t) => pure (true, nm, t)
  | none =>
    let (nm, t) ← parseName s
    let t := skipWs t
    let t ← expectChars ['%', '}'] t
    pure (false, (⟨nm⟩ : String), t)

/-- Match the closing `\{%\s*endif\s*%\}` at the head of `s`. -/
def parseEndifAt (s : List Char) : Option (List Char) := do
  let s ← expectChars ['{', '%'] s
  let s := skipWs s
  let s ← expectChars ['e', 'n', 'd', 'i', 'f'] s
  let s := skipWs s
  expectChars ['%', '}'] s

/-- The lazy `([\s\S]*?)` followed by the closing marker: find the earliest
position where the closing marker matches, returning the content before it
and the remainder after it. -/
def findEndif : List Char → Option (List Char × List Char)
  | [] => none
  | c :: rest =>
    match parseEndifAt (c :: rest) with
    | some after => some ([], after)
    | none => (findEndif rest).map (fun ba => (c :: ba.1, ba.2))

/-- Match one whole conditional span at the head of `s`. -/
def matchCondAt (s : List Char) :
    Option (Bool × String × List Char × List Char) := do
  let (neg, nm, rest) ← parseIfHeaderAt s
  let (body, after) ← findEndif rest
  pure (neg, nm, body, after)

/-- One global pass of `template.replace(conditionalRegex, cb)`: scan left to
right for the earliest conditional span, emit its replacement (`content` when
the condition holds, nothing otherwise), and continue after the span — the
replacement itself is never rescanned. `fuel` bounds the recursion; the
wrapper supplies the string's length, which suffices because every step
consumes at least one character. -/
def condScan (ctx : Ctx) : Nat → List Char → List Char
  | 0, s => s
  | Nat.succ fuel, s =>
    match s with
    | [] => []
    | c :: rest =>
      match matchCondAt (c :: rest) with
      | some (neg, nm, body, after) =>
        let hv := hasValue (ctx nm)
        let shouldShow := if neg then !hv else hv
        (if shouldShow then body else []) ++ condScan ctx fuel after
      | none => c :: condScan ctx fuel rest

/-- `processConditionals` from `template-engine.ts`. -/
def processConditionals (template : String) (ctx : Ctx) : String :=
  ⟨condScan ctx template.data.length template.data⟩

/-- Match `\{\{(\w+)\|date\('([^']+)'\)\}\}` at the head of `s`. -/
def parseDateFilterAt (s : List Char) : Option (String × String × List Char) := do
  let s ← expectChars ['{', '{'] s
  let (nm, s) ← parseName s
  let s ← expectChars ['|', 'd', 'a', 't', 'e', '(', '\''] s
  let fmt := s.takeWhile (fun c => !(c = '\''))
  if fmt.isEmpty then none
  else
    let s := s.drop fmt.length
    let s ← expectChars ['\'', ')', '}', '}'] s
    pure ((⟨nm⟩ : String), (⟨fmt⟩ : String), s)

/-- The date-filter pass: `result.replace(/\{\{(\w+)\|date\('([^']+)'\)\}\}/g, cb)`
where the callback renders `''` for an absent/null value and
`formatDate(String(value), format)` otherwise. -/
def dateFilterScan (parse : String → Option JSDate) (ctx : Ctx) :
    Nat → List Char → List Char
  | 0, s => s
  | Nat.succ fuel, s =>
    match s with
    | [] => []
    | c :: rest =>
      match parseDateFilterAt (c :: rest) with
      | some (nm, fmt, after) =>
        let rep :=
          match ctx nm with
          | none => ""
          | some v => formatDate parse (some (valueToString v)) fmt
        rep.data ++ dateFilterScan parse ctx fuel after
      | none => c :: dateFilterScan parse ctx fuel rest

/-- Match `\{\{(\w+)\}\}` at the head of `s`. -/
def parseVarAt (s : List Char) : Option (String × List Char) := do
  let s ← expectChars ['{', '{'] s
  let (nm, s) ← parseName s
  let s ← expectChars ['}', '}'] s
  pure ((⟨nm⟩ : String), s)

/-- The simple-variable pass: `result.replace(/\{\{(\w+)\}\}/g, cb)` where the
callback renders `''` for an absent/null value and `String(value)` otherwise. -/
def varScan (ctx : Ctx) : Nat → List Char → List Char
  | 0, s => s
  | Nat.succ fuel, s =>
    match s with
    | [] => []
    | c :: rest =>
      match parseVarAt (c :: rest) with
      | some (nm, after) =>
        let rep :=
          match ctx nm with
          | none => ""
          | some v => valueToString v
        rep.data ++ varScan ctx fuel after
      | none => c :: varScan ctx fuel rest

/-- `renderTemplate` from `template-engine.ts`: the conditional pass, then the
date-filter pass, then the simple-variable pass. `parse` models JavaScript
date parsing exactly as in `formatDate`. -/
def renderTemplate (parse : String → Option JSDate) (template : String)
    (ctx : Ctx) : String :=
  let r1 := processConditionals template ctx
  let r2 : String := ⟨dateFilterScan parse ctx r1.data.length r1.data⟩
  ⟨varScan ctx r2.data.length r2.data⟩

-- ============================================================================
-- Highlight processor (highlight-processor module of the settings.ts bundle)
-- ============================================================================

/-- `Math.round`: round half towards positive infinity, that is the floor of
the value plus one half. -/
def jsRound (q : ℚ) : ℤ := (q + 1 / 2).floor

/-- A processed highlight. The source's `annotation` field is called `annot`
here and `createdAt` holds the components of the parsed `Date`. -/
structure ProcessedHighlight where
  bookmarkId : String
  text : String
  annot : String
  createdAt : JSDate
  chapterProgress : ℚ
  chapterContentId : Option String

structure BookRecord where
  title : String
  author : String
  contentId : String
  percentRead : ℚ
  numPages : Option Int
  dateLastRead : Option String

structure BookWithHighlights where
  book : BookRecord
  highlights : List ProcessedHighlight

structure KoboPluginSettings where
  databasePath : String
  outputFolder : String
  includeStoreBought : Bool
  appendToExisting : Bool
  fileNameTemplate : String
  frontmatterTemplate : String
  pageMetadataTemplate : String
  highlightTemplate : String
  syncHeaderTemplate : String

/-- Collapse runs of two or more spaces to a single space — the
`replace(/[ ]{2,}/g, ' ')` step of `normalizeText` (newlines preserved).
A space followed by another space is dropped; the last space of a run
survives. -/
def collapseSpaceRuns : List Char → List Char
  | [] => []
  | [c] => [c]
  | c :: d :: rest =>
    if c = ' ' && d = ' ' then collapseSpaceRuns (d :: rest)
    else c :: collapseSpaceRuns (d :: rest)

/-- `normalizeText`: trim, replace tabs with spaces, collapse multiple
spaces. -/
def normalizeText (text : String) : String :=
  if text = "" then ""
  else ⟨collapseSpaceRuns ((jsTrimL text.data).map (fun c => if c = '\t' then ' ' else c))⟩

/-- ASCII fragment of `String.prototype.toLowerCase` (the general Unicode
mapping lives in the JS runtime; ASCII is the part duplicate detection
exercises). -/
def jsToLower (c : Char) : Char :=
  if 'A' ≤ c && c ≤ 'Z' then Char.ofNat (c.toNat + 32) else c

/-- Dropping a prefix cannot lengthen a list (termination helper). -/
theorem dropWhileLenLe (p : Char → Bool) (l : List Char) :
    (l.dropWhile p).length ≤ l.length :=
  (List.dropWhile_suffix p).sublist.length_le

/-- Collapse every whitespace run to a single space — `replace(/\s+/g, ' ')`.
A whitespace character followed by more whitespace is dropped; the last
character of a run is emitted as a single space. -/
def collapseWsRuns : List Char → List Char
  | [] => []
  | [c] => if isJsWs c then [' '] else [c]
  | c :: d :: rest =>
    if isJsWs c && isJsWs d then collapseWsRuns (d :: rest)
    else (if isJsWs c then ' ' else c) :: collapseWsRuns (d :: rest)

/-- `hashText`: lower-case, collapse whitespace, trim, then first 50
characters (or the literal `empty`) plus `_` plus the normalized length. -/
def hashText (text : String) : String :=
  let normalized : List Char := jsTrimL (collapseWsRuns (text.data.map jsToLower))
  let prefx := normalized.take 50
  (if 0 < prefx.length then (⟨prefx⟩ : String) else "empty") ++ "_" ++
    natDigitsStr normalized.length

/-- One `exec` loop of `/^>\s*(.+)$/gm` over the note content, with the
regex engine's backtracking semantics: at a line-initial `>` the greedy `\s*`
may run across newlines, and `(.+)` then captures the rest of the line on
which it stopped. A tail that is whitespace to the end of input can only
yield a group that trims to nothing and never passes the length filter, so it
contributes no captured text. Returns the captured groups in order. -/
def scanQuotesAux : Nat → Bool → List Char → List String
  | 0, _, _ => []
  | fuel + 1, atLineStart, s =>
    match s with
    | [] => []
    | c :: rest =>
      if atLineStart && c = '>' then
        let j := rest.dropWhile isJsWs
        if j.isEmpty then []
        else
          let grp := j.takeWhile (fun e => !(e = '\n'))
          let after := j.dropWhile (fun e => !(e = '\n'))
          (⟨grp⟩ : String) :: scanQuotesAux fuel false after
      else scanQuotesAux fuel (c = '\n') rest

/-- The full scan of the note content (every step consumes at least one
character, so the content's length is enough fuel). -/
def scanQuotes (content : List Char) : List String :=
  scanQuotesAux content.length true content

/-- `extractExistingHighlights`: hash every blockquote capture longer than
ten characters (the source collects them in a `Set`; a list preserves exactly
the membership the append filter consults). -/
def extractExistingHighlights (content : String) : List String :=
  (scanQuotes content.data).filterMap (fun raw =>
    let text : String := ⟨jsTrimL raw.data⟩
    if 10 < text.data.length then some (hashText text) else none)

/-- `createBookContext`: the book-scope template context; `nowIso` models
`new Date().toISOString()` at the moment of the call. -/
def createBookContext (nowIso : String) (book : BookRecord)
    (highlightCount : Nat) : Ctx :=
  fun name =>
    if name = "title" then some (.vStr book.title)
    else if name = "author" then some (.vStr book.author)
    else if name = "progress" then some (.vNum ((jsRound book.percentRead : ℤ) : ℚ))
    else if name = "pages" then book.numPages.map (fun n => .vNum (n : ℚ))
    else if name = "date_last_read" then book.dateLastRead.map .vStr
    else if name = "highlights_count" then some (.vNum (highlightCount : ℚ))
    else if name = "source" then some (.vStr "kobo")
    else if name = "date" then some (.vStr nowIso)
    else if name = "content_id" then some (.vStr book.contentId)
    else none

/-- `parseInt(digits, 10)` on a nonempty digit capture. -/
def digitsToNat (ds : List Char) : Nat :=
  ds.foldl (fun a c => a * 10 + (c.toNat - 48)) 0

/-- First match of the regex `#\((\d+)\)`, scanning left to right: at a `#`
followed by `(`, one or more digits and `)`, capture the digits; otherwise
resume the scan at the next position. -/
def scanChapterIdx : List Char → Option Nat
  | [] => none
  | c :: rest =>
    if c = '#' then
      match rest with
      | '(' :: rest2 =>
        (match rest2.takeWhile Char.isDigit,
               rest2.drop (rest2.takeWhile Char.isDigit).length with
         | d :: ds, ')' :: _ => some (digitsToNat (d :: ds))
         | _, _ => scanChapterIdx rest)
      | _ => scanChapterIdx rest
    else scanChapterIdx rest

/-- `extractChapterIndex`: the chapter index embedded as `#(N)` in a
bookmark's ContentID, when present. -/
def extractChapterIndex : Option String → Option Nat
  | none => none
  | some contentId => scanChapterIdx contentId.data

/-- Chapter count entry of the chapter table (`BookChapterData`). -/
structure BookChapterData where
  totalChapters : Int

/-- `createHighlightContext`: spread of the book context plus the
highlight-scope fields. The `location` key is always written (possibly with
`undefined`, overriding any base entry); it carries the rounded global
position exactly when a chapter index was extracted and the chapter table
entry reports a positive chapter count. `toIso` models
`Date.prototype.toISOString`. -/
def createHighlightContext (toIso : JSDate → String)
    (highlight : ProcessedHighlight) (bookContext : Ctx)
    (chapterData : Option BookChapterData) : Ctx :=
  let locationPercent : Option ℚ :=
    match extractChapterIndex highlight.chapterContentId, chapterData with
    | some ci, some cd =>
      if 0 < cd.totalChapters then
        some ((jsRound ((((ci : ℚ) + highlight.chapterProgress) /
          (cd.totalChapters : ℚ)) * 100) : ℤ) : ℚ)
      else none
    | _, _ => none
  fun name =>
    if name = "text" then some (.vStr highlight.text)
    else if name = "annotation" then some (.vStr highlight.annot)
    else if name = "chapter_progress" then some (.vNum highlight.chapterProgress)
    else if name = "date_created" then some (.vStr (toIso highlight.createdAt))
    else if name = "bookmark_id" then some (.vStr highlight.bookmarkId)
    else if name = "location" then locationPercent.map .vNum
    else bookContext name

/-- Result record of `appendHighlightsToNote`. -/
structure AppendResult where
  content : String
  newHighlightsCount : Nat
deriving DecidableEq

/-- `Array.prototype.join('\n')`. -/
def joinNL : List String → String
  | [] => ""
  | [s] => s
  | s :: rest => s ++ "\n" ++ joinNL rest

/-- `appendHighlightsToNote`: filter the incoming highlights against the
fingerprints extracted from the existing note; when none survive return the
existing content unchanged with a count of zero, otherwise append the sync
header and the surviving highlight blocks. -/
def appendHighlightsToNote (parse : String → Option JSDate)
    (toIso : JSDate → String) (nowIso : String) (existingContent : String)
    (bw : BookWithHighlights) (settings : KoboPluginSettings)
    (chapterData : Option BookChapterData) : AppendResult :=
  let existingHashes := extractExistingHighlights existingContent
  let newHighlights :=
    bw.highlights.filter (fun h => !(existingHashes.contains (hashText h.text)))
  if newHighlights.isEmpty then ⟨existingContent, 0⟩
  else
    let bookContext := createBookContext nowIso bw.book bw.highlights.length
    let newSections : List String :=
      [""] ++ [renderTemplate parse settings.syncHeaderTemplate bookContext] ++ [""]
        ++ newHighlights.map (fun h =>
            renderTemplate parse settings.highlightTemplate
              (createHighlightContext toIso h bookContext chapterData))
    ⟨existingContent ++ joinNL newSections, newHighlights.length⟩

/-- Characters stripped by `generateFilename`'s class `[<>:"/\\|?*]`. -/
def isIllegalFilenameChar (c : Char) : Bool :=
  c = '<' || c = '>' || c = ':' || c = '"' || c = '/' ||
  c = '\\' || c = '|' || c = '?' || c = '*'

/-- Global removal `replace(/[<>:"\/\\|?*]/g, '')`. -/
def removeIllegalChars : List Char → List Char
  | [] => []
  | c :: rest =>
    if isIllegalFilenameChar c then removeIllegalChars rest
    else c :: removeIllegalChars rest

/-- The context `{ title }` that `generateFilename` renders against. -/
def ctxOnlyTitle (title : String) : Ctx :=
  fun name => if name = "title" then some (.vStr title) else none

/-- `generateFilename`: render the filename template against the
title-only context, strip illegal characters, collapse whitespace, trim and
truncate to 100 characters. -/
def generateFilename (parse : String → Option JSDate) (title : String)
    (settings : KoboPluginSettings) : String :=
  let filename := renderTemplate parse settings.fileNameTemplate (ctxOnlyTitle title)
  ⟨(jsTrimL (collapseWsRuns (removeIllegalChars filename.data))).take 100⟩

/-- Modelled from the spec's filename sentence, written independently of the
source chain: strip the characters illegal in file names, collapse whitespace
runs, trim, truncate to 100 characters. Used only for comparison with
`generateFilename`. -/
def specFilenameSanitize (s : String) : String :=
  ⟨(jsTrimL (collapseWsRuns (s.data.filter (fun c => !(isIllegalFilenameChar c))))).take 100⟩

-- ============================================================================
-- Chapter table (kobo-db module of the settings.ts bundle)
-- ============================================================================

/-- A chapter-type row as selected by `getBookChapterData`'s query. -/
structure ChapterInfo where
  ContentID : String
  VolumeIndex : Int

/-- `String.prototype.indexOf` for a pattern string: position of the first
occurrence; `none` models the `-1` "not found" result. -/
def jsIndexOf (pat : List Char) : List Char → Option Nat
  | [] => if pat.isEmpty then some 0 else none
  | c :: rest =>
    if leadsWith pat (c :: rest) then some 0
    else (jsIndexOf pat rest).map (· + 1)

/-- `extractBookIdFromChapterId` on the character list: find the first `#`
and the first `!!`, keep the smaller position when both exist, and take the
prefix before it; return the identifier unchanged when neither occurs. -/
def extractBookIdL (chapterId : List Char) : List Char :=
  let hashIndex := jsIndexOf ['#'] chapterId
  let doubleExclamIndex := jsIndexOf ['!', '!'] chapterId
  let separatorIndex : Option Nat :=
    match hashIndex, doubleExclamIndex with
    | some h, some d => some (min h d)
    | some h, none => some h
    | none, some d => some d
    | none, none => none
  match separatorIndex with
  | some i => chapterId.take i
  | none => chapterId

/-- `extractBookIdFromChapterId`: prefix before the earlier of the first `#`
and the first `!!`, or the whole identifier when neither occurs. -/
def extractBookIdFromChapterId (chapterId : String) : String :=
  ⟨extractBookIdL chapterId.data⟩

/-- The spec's separator-extraction rule written directly: drop everything
from the earliest position at which `#` occurs or `!!` starts; the whole
identifier survives when neither occurs. Used only for comparison with
`extractBookIdFromChapterId`. -/
def bookIdBeforeSep : List Char → List Char
  | [] => []
  | c :: rest =>
    if c = '#' ∨ leadsWith ['!', '!'] (c :: rest) = true then []
    else c :: bookIdBeforeSep rest

/-- One iteration of the chapter loop of `getBookChapterData`: ensure the
book has an entry (initial chapter count 0), then raise its `totalChapters`
to `VolumeIndex + 1` when that is larger. -/
def insertChapter (m : String → Option Int) (ch : ChapterInfo) :
    String → Option Int :=
  let bookId := extractBookIdFromChapterId ch.ContentID
  let cur := (m bookId).getD 0
  fun k => if k = bookId then some (max cur (ch.VolumeIndex + 1)) else m k

/-- `getBookChapterData`, the chapter table as a lookup function. -/
def getBookChapterData (chapters : List ChapterInfo) : String → Option Int :=
  chapters.foldl insertChapter (fun _ => none)

/-- The per-key effect of one chapter on a table cell: raise the cell (with 0
for an absent cell) to `VolumeIndex + 1` when larger. Used to state what
`getBookChapterData` computes per book. -/
def bumpChapter (acc : Option Int) (ch : ChapterInfo) : Option Int :=
  some (max (acc.getD 0) (ch.VolumeIndex + 1))

-- ============================================================================
-- Highlight aggregation (processHighlights)
-- ============================================================================

/-- A bookmark row. The source's `Annotation` and `Type` fields are called
`AnnotationText` and `TypeStr` here. -/
structure KoboBookmark where
  BookmarkID : String
  VolumeID : String
  ContentID : Option String
  Text : Option String
  AnnotationText : Option String
  DateCreated : Option String
  DateModified : Option String
  ChapterProgress : ℚ
  Hidden : Option String
  TypeStr : Option String

/-- A content row (the fields of the `KoboContent` interface). -/
structure KoboContent where
  ContentID : String
  ContentType : String
  MimeType : Option String
  BookTitle : Option String
  Title : Option String
  Attribution : Option String
  Description : Option String
  DateCreated : Option String
  Publisher : Option String
  DateLastRead : Option String
  VolumeIndex : Int
  NumPages : Option Int
  ReadStatus : Int
  PercentRead : Option String
  ISBN : Option String
  Series : Option String
  SeriesNumber : Option String
  TimeSpentReading : Option Int

/-- JavaScript `a || b` on optional strings: the empty string, `null` and
`undefined` are falsy. -/
def jsStrOr (a b : Option String) : Option String :=
  match a with
  | some s => if s = "" then b else some s
  | none => b

/-- `parseKoboDate`: parse with `new Date`, falling back to the current time
(`now`) when the input is absent or empty or does not parse as a valid date.
The result is always a valid date: absence and parse failure cannot escape. -/
def parseKoboDate (parse : String → Option JSDate) (now : JSDate) :
    Option String → JSDate
  | none => now
  | some s => if s = "" then now else (parse s).getD now

/-- An entry of the insertion-ordered `bookMap` of `processHighlights`. -/
abbrev BookEntry := String × Option KoboContent × List ProcessedHighlight

/-- `bookEntry.highlights.push(...)` on the entry with the given key. -/
def pushToEntry (k : String) (h : ProcessedHighlight) :
    List BookEntry → List BookEntry
  | [] => []
  | (k', b, hs) :: rest =>
    if k' = k then (k', b, hs ++ [h]) :: rest
    else (k', b, hs) :: pushToEntry k h rest

/-- `bookMap.has(volumeId)`. -/
def hasEntry (k : String) : List BookEntry → Bool
  | [] => false
  | (k', _, _) :: rest => k' = k || hasEntry k rest

/-- One iteration of the first loop of `processHighlights`: skip bookmarks
with neither text nor annotation, create the book entry on first sight, and
push the processed highlight. -/
def stepBookmark (parse : String → Option JSDate) (now : JSDate)
    (contentIndex : String → Option KoboContent) (m : List BookEntry)
    (bm : KoboBookmark) : List BookEntry :=
  let text := normalizeText (bm.Text.getD "")
  let annot := bm.AnnotationText.getD ""
  if text = "" && annot = "" then m
  else
    let m' :=
      if hasEntry bm.VolumeID m then m
      else m ++ [(bm.VolumeID, contentIndex bm.VolumeID, [])]
    pushToEntry bm.VolumeID
      { bookmarkId := bm.BookmarkID
        text := if text = "" then "Placeholder for attached annotation" else text
        annot := annot
        createdAt := parseKoboDate parse now (jsStrOr bm.DateCreated bm.DateModified)
        chapterProgress := bm.ChapterProgress
        chapterContentId := bm.ContentID } m'

/-- The second loop of `processHighlights`: resolve book metadata for one map
entry. `pf` models `parseFloat` (restricted to its numeric results) and
`extractTitle` models `extractTitleFromPath`, whose body leans on the host's
`URL` parser. -/
def entryToBook (pf : String → ℚ) (extractTitle : String → String)
    (e : BookEntry) : BookWithHighlights :=
  let (volumeId, bookOpt, highlights) := e
  let title0 :=
    (jsStrOr (jsStrOr (bookOpt.bind (·.Title)) (bookOpt.bind (·.BookTitle)))
      (some "")).getD ""
  let title := if title0 = "" then extractTitle volumeId else title0
  let author :=
    (jsStrOr (bookOpt.bind (·.Attribution)) (some "Unknown Author")).getD
      "Unknown Author"
  let raw := pf ((jsStrOr (bookOpt.bind (·.PercentRead)) (some "0")).getD "0")
  { book :=
      { title := title
        author := author
        contentId := volumeId
        percentRead := if 1 < raw then raw else raw * 100
        numPages :=
          (bookOpt.bind (·.NumPages)).bind (fun n => if n = 0 then none else some n)
        dateLastRead := jsStrOr (bookOpt.bind (·.DateLastRead)) none }
    highlights := highlights }

/-- `processHighlights`: group the bookmarks by volume, resolve book
metadata, and sort the books by title. `cmp` models
`String.prototype.localeCompare`; the sort is modelled as a stable merge
sort on `cmp ≤ 0`. -/
def processHighlights (parse : String → Option JSDate) (now : JSDate)
    (pf : String → ℚ) (extractTitle : String → String)
    (cmp : String → String → Int) (bookmarks : List KoboBookmark)
    (contentIndex : String → Option KoboContent) : List BookWithHighlights :=
  let bookMap := bookmarks.foldl (stepBookmark parse now contentIndex) []
  let result := bookMap.map (entryToBook pf extractTitle)
  result.mergeSort (fun a b => cmp a.book.title b.book.title ≤ 0)

-- ============================================================================
-- Concrete fixtures for witnesses and counterexamples
-- ============================================================================

/-- A date-parsing primitive that accepts nothing (used where parsing is
irrelevant). -/
def pdNone : String → Option JSDate := fun _ => none

/-- A fixed `toISOString` rendering. -/
def toIsoFix : JSDate → String := fun _ => "1970-01-01T00:00:00.000Z"

def dateFix : JSDate := ⟨1970, 0, 1, 4, 0, 0, 0⟩

def ctxEmpty : Ctx := fun _ => none

def hlFix : ProcessedHighlight := ⟨"b1", "abcdefghijklmnop", "", dateFix, 0, none⟩

def bwFix : BookWithHighlights := ⟨⟨"T", "A", "cid", 0, none, none⟩, [hlFix]⟩

/-- Settings whose highlight template does not render the text as a
blockquote line. -/
def settingsNB : KoboPluginSettings :=
  ⟨"", "", true, true, "\x7b\x7btitle\x7d\x7d", "F", "P",
    "\x7b\x7btext\x7d\x7d", "SYNC"⟩

/-- Settings whose highlight template renders the text as a blockquote line
(the default template's shape). -/
def settingsBQ : KoboPluginSettings :=
  ⟨"", "", true, true, "\x7b\x7btitle\x7d\x7d", "F", "P",
    "> \x7b\x7btext\x7d\x7d", "SYNC"⟩

/-- A context holding only a nonempty `title` string. -/
def ctxTitleT : Ctx :=
  fun n => if n = "title" then some (.vStr "t") else none

/-- A context where `progress` is the number zero. -/
def ctxProgressZero : Ctx :=
  fun n => if n = "progress" then some (.vNum 0) else none

/-- A bookmark row with text but no annotation and no timestamps. -/
def bmFix : KoboBookmark :=
  ⟨"b1", "v", none, some "abcdefghijklmnop", none, none, none, 0, none, none⟩

/-- A `parseFloat` stand-in returning zero. -/
def pf0 : String → ℚ := fun _ => 0

/-- A title-extraction stand-in returning the identifier itself. -/
def et0 : String → String := fun s => s

/-- A `localeCompare` stand-in treating all strings as equal. -/
def cmp0 : String → String → Int := fun _ _ => 0

-- ============================================================================
-- Theorems
-- ============================================================================

/-- `Rat.floor` agrees with the floor of the ordered field ℚ. -/
theorem ratFloorEqIntFloor (q : ℚ) : q.floor = ⌊q⌋ := by
  rw [Rat.floor_def', Rat.floor_def]

/-- When the duplicate filter removes every incoming highlight, the append
operation returns its input text unchanged with a count of zero (shared
helper for the idempotence and no-op claims). -/
theorem appendNoSurvivors (parse : String → Option JSDate)
    (toIso : JSDate → String) (nowIso existing : String)
    (bw : BookWithHighlights) (settings : KoboPluginSettings)
    (cd : Option BookChapterData)
    (h : ∀ hl ∈ bw.highlights,
      (extractExistingHighlights existing).contains (hashText hl.text) = true) :
    appendHighlightsToNote parse toIso nowIso existing bw settings cd =
      ⟨existing, 0⟩ := by
  have hf : bw.highlights.filter
      (fun hl => !((extractExistingHighlights existing).contains (hashText hl.text))) = [] := by
    rw [List.filter_eq_nil_iff]
    intro a ha
    simpa using h a ha
  unfold appendHighlightsToNote
  simp only [hf]
  simp

/-- C2: for every existing note text, book, settings and chapter table, if
every incoming highlight's fingerprint already occurs among the fingerprints
extracted from the existing text's blockquote lines, `appendHighlightsToNote`
returns the existing text unchanged — the very same value — together with a
new-highlight count of zero. -/
theorem append_all_duplicates_noop (parse : String → Option JSDate)
    (toIso : JSDate → String) (nowIso existing : String)
    (bw : BookWithHighlights) (settings : KoboPluginSettings)
    (cd : Option BookChapterData)
    (h : ∀ hl ∈ bw.highlights,
      (extractExistingHighlights existing).contains (hashText hl.text) = true) :
    appendHighlightsToNote parse toIso nowIso existing bw settings cd =
      ⟨existing, 0⟩ :=
  appendNoSurvivors parse toIso nowIso existing bw settings cd h

/-- C2 witness: a concrete note already containing the highlight's text as a
blockquote line; the append call returns the note unchanged with count 0. -/
theorem append_all_duplicates_noop_witness :
    (∀ hl ∈ bwFix.highlights,
      (extractExistingHighlights "> abcdefghijklmnop").contains
        (hashText hl.text) = true) ∧
    appendHighlightsToNote pdNone toIsoFix "NOW" "> abcdefghijklmnop" bwFix
      settingsBQ none = ⟨"> abcdefghijklmnop", 0⟩ :=
  ⟨by decide,
   append_all_duplicates_noop pdNone toIsoFix "NOW" "> abcdefghijklmnop" bwFix
     settingsBQ none (by decide)⟩

/-- C1 counterexample: with a highlight template that does not render the
text as a blockquote line, the second of two identical append calls is not a
no-op — its new-highlight count is 1, not 0. -/
theorem append_twice_not_idempotent_cex :
    (appendHighlightsToNote pdNone toIsoFix "NOW"
      (appendHighlightsToNote pdNone toIsoFix "NOW" "" bwFix settingsNB
        none).content
      bwFix settingsNB none).newHighlightsCount ≠ 0 := by decide

/-- C1 (amended): applying the append operation once and then again to the
resulting text with the same book, settings and chapter table yields, on the
second call, a count of zero and output byte-identical to its input,
provided every incoming highlight's fingerprint occurs among the
fingerprints extracted from the first call's output (as happens when the
highlight template renders each text as a blockquote line). -/
theorem append_second_call_noop_of_covered (parse : String → Option JSDate)
    (toIso : JSDate → String) (nowIso existing : String)
    (bw : BookWithHighlights) (settings : KoboPluginSettings)
    (cd : Option BookChapterData)
    (h : ∀ hl ∈ bw.highlights,
      (extractExistingHighlights
        (appendHighlightsToNote parse toIso nowIso existing bw settings
          cd).content).contains (hashText hl.text) = true) :
    appendHighlightsToNote parse toIso nowIso
      (appendHighlightsToNote parse toIso nowIso existing bw settings
        cd).content bw settings cd =
    ⟨(appendHighlightsToNote parse toIso nowIso existing bw settings
        cd).content, 0⟩ :=
  appendNoSurvivors parse toIso nowIso _ bw settings cd h

/-- C1 witness: with the blockquote-shaped highlight template the first
call's output covers the highlight's fingerprint, and the second call is a
byte-identical no-op with count 0. -/
theorem append_second_call_noop_witness :
    appendHighlightsToNote pdNone toIsoFix "NOW"
      (appendHighlightsToNote pdNone toIsoFix "NOW" "" bwFix settingsBQ
        none).content bwFix settingsBQ none =
    ⟨(appendHighlightsToNote pdNone toIsoFix "NOW" "" bwFix settingsBQ
        none).content, 0⟩ :=
  append_second_call_noop_of_covered pdNone toIsoFix "NOW" "" bwFix settingsBQ
    none (by decide)

/-- C7: the date formatter never raises: absent or empty input yields the
empty string, and input that does not parse as a valid date is returned
unchanged, for every pattern. -/
theorem format_date_fallbacks (parse : String → Option JSDate)
    (format : String) :
    formatDate parse none format = "" ∧
    formatDate parse (some "") format = "" ∧
    ∀ s : String, parse s = none → formatDate parse (some s) format = s := by
  refine ⟨rfl, rfl, ?_⟩
  intro s hs
  by_cases h : s = ""
  · subst h; rfl
  · simp [formatDate, h, hs]

/-- C7 witness: the fallbacks at concrete inputs. -/
theorem format_date_fallbacks_witness :
    formatDate pdNone none "YYYY" = "" ∧
    formatDate pdNone (some "") "YYYY" = "" ∧
    formatDate pdNone (some "not a date") "YYYY" = "not a date" :=
  ⟨(format_date_fallbacks pdNone "YYYY").1,
   (format_date_fallbacks pdNone "YYYY").2.1,
   (format_date_fallbacks pdNone "YYYY").2.2 "not a date" rfl⟩

/-- Removing the illegal-filename characters is filtering on their
complement. -/
theorem removeIllegalEqFilter (l : List Char) :
    removeIllegalChars l = l.filter (fun c => !(isIllegalFilenameChar c)) := by
  induction l with
  | nil => rfl
  | cons c rest ih =>
    by_cases h : isIllegalFilenameChar c <;>
      simp [removeIllegalChars, h, ih]

/-- C9 counterexample: the claim's example is wrong on the code — stripping
the illegal characters of `My: Book/Title` removes the `/` between `Book`
and `Title` outright, so the derived filename is not `My Book Title`. -/
theorem filename_example_cex :
    generateFilename pdNone "My: Book/Title" settingsNB ≠ "My Book Title" := by
  decide

/-- C9 (amended): filename derivation renders the filename template against
the title-only context and applies the spec's sanitation pipeline — strip
the characters illegal in file names, collapse whitespace runs, trim,
truncate to 100 characters; the example title `My: Book/Title` with template
`(doubled braces)title` yields `My BookTitle`. -/
theorem filename_pipeline (parse : String → Option JSDate) (title : String)
    (settings : KoboPluginSettings) :
    generateFilename parse title settings =
      specFilenameSanitize
        (renderTemplate parse settings.fileNameTemplate (ctxOnlyTitle title)) ∧
    generateFilename pdNone "My: Book/Title" settingsNB = "My BookTitle" := by
  constructor
  · simp only [generateFilename, specFilenameSanitize, removeIllegalEqFilter]
  · decide

/-- C4: the resolved location is absent whenever no chapter index can be
extracted from the chapter-content identifier (including when the identifier
is absent), or no chapter table entry exists for the book, or the entry's
total chapter count is zero — regardless of everything else in the context. -/
theorem location_absent_of_missing_data (toIso : JSDate → String)
    (h : ProcessedHighlight) (base : Ctx) (cd : Option BookChapterData)
    (hmiss : extractChapterIndex h.chapterContentId = none ∨ cd = none ∨
      ∃ d, cd = some d ∧ d.totalChapters = 0) :
    createHighlightContext toIso h base cd "location" = none := by
  unfold createHighlightContext
  rcases hmiss with h1 | h2 | ⟨d, rfl, hd⟩
  · simp [h1]
  · subst h2
    rcases extractChapterIndex h.chapterContentId with _ | ci <;> simp
  · rcases extractChapterIndex h.chapterContentId with _ | ci <;> simp [hd]

/-- C4 witness: a highlight whose chapter-content identifier has no `#(N)`
marker yields an absent location even with a populated chapter table entry. -/
theorem location_absent_witness :
    extractChapterIndex (some "file:///b.epub!!OEBPS/ch4.xhtml") = none ∧
    createHighlightContext toIsoFix
      ⟨"b1", "t", "", dateFix, 0, some "file:///b.epub!!OEBPS/ch4.xhtml"⟩
      ctxEmpty (some ⟨10⟩) "location" = none :=
  ⟨by decide,
   location_absent_of_missing_data toIsoFix
     ⟨"b1", "t", "", dateFix, 0, some "file:///b.epub!!OEBPS/ch4.xhtml"⟩
     ctxEmpty (some ⟨10⟩) (Or.inl (by decide))⟩

/-- C3: with an extractable chapter index `n` and a chapter table entry with
positive total chapter count, the resolved location is
`round(((n + chapterProgress) / totalChapters) * 100)`. -/
theorem location_formula_of_chapter_data (toIso : JSDate → String)
    (h : ProcessedHighlight) (base : Ctx) (cd : BookChapterData) (n : Nat)
    (hidx : extractChapterIndex h.chapterContentId = some n)
    (hpos : 0 < cd.totalChapters) :
    createHighlightContext toIso h base (some cd) "location" =
      some (.vNum ((jsRound ((((n : ℚ) + h.chapterProgress) /
        (cd.totalChapters : ℚ)) * 100) : ℤ) : ℚ)) := by
  unfold createHighlightContext
  simp [hidx, hpos]

/-- C3 witness: identifier `file:///b.epub#(3)OEBPS/ch4.xhtml` with
chapter-progress one half and a table entry of 10 total chapters resolves to
location 35. -/
theorem location_formula_witness :
    extractChapterIndex (some "file:///b.epub#(3)OEBPS/ch4.xhtml") = some 3 ∧
    createHighlightContext toIsoFix
      ⟨"b1", "t", "", dateFix, 1 / 2, some "file:///b.epub#(3)OEBPS/ch4.xhtml"⟩
      ctxEmpty (some ⟨10⟩) "location" = some (.vNum 35) := by
  refine ⟨by decide, ?_⟩
  rw [location_formula_of_chapter_data toIsoFix
    ⟨"b1", "t", "", dateFix, 1 / 2, some "file:///b.epub#(3)OEBPS/ch4.xhtml"⟩
    ctxEmpty ⟨10⟩ 3 (by decide) (by decide)]
  have harg : (((3 : Nat) : ℚ) +
      (⟨"b1", "t", "", dateFix, 1 / 2, some "file:///b.epub#(3)OEBPS/ch4.xhtml"⟩ :
        ProcessedHighlight).chapterProgress) /
      (((⟨10⟩ : BookChapterData).totalChapters : ℤ) : ℚ) * 100 = 35 := by
    push_cast
    norm_num
  rw [harg]
  have h35 : jsRound (35 : ℚ) = 35 := by
    rw [jsRound, ratFloorEqIntFloor, Int.floor_eq_iff]
    constructor <;> norm_num
  rw [h35]
  norm_num

/-- Strings with equal character lists are equal. -/
theorem strExt (a b : String) (h : a.data = b.data) : a = b := by
  cases a; cases b; exact congrArg String.mk h

/-- `digitChar` always yields a digit character. -/
theorem digitCharIsDigit (m : Nat) : (digitChar m).isDigit = true := by
  unfold digitChar
  split <;> decide

/-- Every character produced by `natDigitsAux` is a digit. -/
theorem natDigitsAuxDigits (fuel : Nat) :
    ∀ n : Nat, ∀ c ∈ natDigitsAux fuel n, c.isDigit = true := by
  induction fuel with
  | zero => intro n c hc; simp [natDigitsAux] at hc
  | succ fuel ih =>
    intro n c hc
    unfold natDigitsAux at hc
    by_cases h : n < 10
    · rw [if_pos h] at hc
      rcases List.mem_singleton.mp hc with rfl
      exact digitCharIsDigit n
    · rw [if_neg h] at hc
      rcases List.mem_append.mp hc with hc | hc
      · exact ih _ c hc
      · rcases List.mem_singleton.mp hc with rfl
        exact digitCharIsDigit _

/-- Every character of `natDigits` is a digit. -/
theorem natDigitsDigits (n : Nat) : ∀ c ∈ natDigits n, c.isDigit = true :=
  natDigitsAuxDigits (n + 1) n

/-- Every character of `pad2` is a digit. -/
theorem pad2Digits (n : Nat) : ∀ c ∈ (pad2 n).data, c.isDigit = true := by
  intro c hc
  unfold pad2 at hc
  by_cases h : n < 10
  · rw [if_pos h] at hc
    have he : ("0" ++ natDigitsStr n).data = '0' :: natDigits n := rfl
    rw [he] at hc
    rcases List.mem_cons.mp hc with rfl | hc
    · decide
    · exact natDigitsDigits n c hc
  · rw [if_neg h] at hc
    exact natDigitsDigits n c hc

/-- Every character of `intToStr` is a digit or the minus sign. -/
theorem intToStrChars (i : Int) :
    ∀ c ∈ (intToStr i).data, c.isDigit = true ∨ c = '-' := by
  intro c hc
  unfold intToStr at hc
  by_cases h : i < 0
  · rw [if_pos h] at hc
    have he : ("-" ++ natDigitsStr i.natAbs).data = '-' :: natDigits i.natAbs := rfl
    rw [he] at hc
    rcases List.mem_cons.mp hc with rfl | hc
    · exact Or.inr rfl
    · exact Or.inl (natDigitsDigits _ c hc)
  · rw [if_neg h] at hc
    exact Or.inl (natDigitsDigits _ c hc)

/-- A character that is a digit or a minus sign differs from any
non-digit, non-minus target character. -/
theorem notInYMDClass {t : Char} (ht : t.isDigit = false) (ht2 : t ≠ '-')
    {c : Char} (h : c.isDigit = true ∨ c = '-') : c ≠ t := by
  rcases h with h | h
  · intro he; rw [he, ht] at h; cases h
  · intro he; exact ht2 (he ▸ h ▸ rfl)

/-- `splitFirst` skips over a block free of the pattern's first character. -/
theorem splitFirstSkip (p0 : Char) (ps : List Char) (s1 s2 : List Char)
    (h : ∀ c ∈ s1, c ≠ p0) :
    splitFirst (p0 :: ps) (s1 ++ s2) =
      (splitFirst (p0 :: ps) s2).map (fun pq => (s1 ++ pq.1, pq.2)) := by
  induction s1 with
  | nil =>
    simp only [List.nil_append]
    cases splitFirst (p0 :: ps) s2 with
    | none => rfl
    | some pq => cases pq; rfl
  | cons c rest ih =>
    have hc : c ≠ p0 := h c (List.mem_cons_self c rest)
    have hlw : leadsWith (p0 :: ps) (c :: (rest ++ s2)) = false := by
      show (decide (p0 = c) && leadsWith ps (rest ++ s2)) = false
      rw [decide_eq_false (fun he => hc he.symm), Bool.false_and]
    have hstep : splitFirst (p0 :: ps) ((c :: rest) ++ s2) =
        (splitFirst (p0 :: ps) (rest ++ s2)).map (fun pq => (c :: pq.1, pq.2)) := by
      rw [List.cons_append]
      show (if leadsWith (p0 :: ps) (c :: (rest ++ s2)) = true
        then some ([], List.drop (p0 :: ps).length (c :: (rest ++ s2)))
        else (splitFirst (p0 :: ps) (rest ++ s2)).map
          (fun pq => (c :: pq.1, pq.2))) = _
      rw [hlw]
      simp
    rw [hstep, ih (fun x hx => h x (List.mem_cons_of_mem c hx))]
    cases splitFirst (p0 :: ps) s2 with
    | none => rfl
    | some pq => cases pq; rfl

/-- `replaceFirstL` over a pattern-free block shifts to the suffix. -/
theorem replaceFirstLSkip (p0 : Char) (ps rep : List Char) (s1 s2 : List Char)
    (h : ∀ c ∈ s1, c ≠ p0) :
    replaceFirstL (p0 :: ps) rep (s1 ++ s2) =
      s1 ++ replaceFirstL (p0 :: ps) rep s2 := by
  unfold replaceFirstL
  rw [splitFirstSkip p0 ps s1 s2 h]
  cases splitFirst (p0 :: ps) s2 with
  | none => rfl
  | some pq => cases pq; simp

/-- A pattern with no occurrence leaves the string unchanged. -/
theorem replaceFirstLNone (pat rep s : List Char)
    (h : splitFirst pat s = none) : replaceFirstL pat rep s = s := by
  unfold replaceFirstL; rw [h]

/-- A found occurrence is replaced once. -/
theorem replaceFirstLSome (pat rep s p q : List Char)
    (h : splitFirst pat s = some (p, q)) :
    replaceFirstL pat rep s = p ++ rep ++ q := by
  unfold replaceFirstL; rw [h]

/-- C8: in the date formatter, tokens are substituted longest-first in the
exact source precedence (`YYYY`, `MMMM`, `MMM`, `MM`, `dddd`, `DD`, `HH`,
`mm`, `ss`), each replacing only the first occurrence of its literal in the
pattern; consequently `YYYY-MM-DD` renders as year, month and day digits
joined by dashes — every output character a digit or a dash, with no
month-name residue — and in `DD DD` only the first `DD` is substituted. -/
theorem format_date_token_precedence (d : JSDate) :
    applyTokens d "YYYY-MM-DD" =
      intToStr d.year ++ "-" ++ pad2 (d.month.val + 1) ++ "-" ++ pad2 d.day ∧
    ((applyTokens d "YYYY-MM-DD").data.all
      (fun c => c.isDigit || c = '-')) = true ∧
    applyTokens d "DD DD" = pad2 d.day ++ " DD" ∧
    ∀ fmt : String, applyTokens d fmt =
      replaceFirst "ss" (pad2 d.second) (replaceFirst "mm" (pad2 d.minute)
        (replaceFirst "HH" (pad2 d.hour) (replaceFirst "DD" (pad2 d.day)
        (replaceFirst "dddd" (daysEn.getD d.weekday.val "")
        (replaceFirst "MM" (pad2 (d.month.val + 1))
        (replaceFirst "MMM" (⟨((monthsEn.getD d.month.val "").data.take 3)⟩)
        (replaceFirst "MMMM" (monthsIt.getD d.month.val "")
        (replaceFirst "YYYY" (intToStr d.year) fmt)))))))) := by
  have hyr : ∀ c ∈ (intToStr d.year).data, c.isDigit = true ∨ c = '-' :=
    intToStrChars d.year
  have hmm : ∀ c ∈ (pad2 (d.month.val + 1)).data, c.isDigit = true ∨ c = '-' :=
    fun c hc => Or.inl (pad2Digits _ c hc)
  have hdd : ∀ c ∈ (pad2 d.day).data, c.isDigit = true ∨ c = '-' :=
    fun c hc => Or.inl (pad2Digits _ c hc)
  have hclass : ∀ c ∈ (intToStr d.year).data ++
      '-' :: ((pad2 (d.month.val + 1)).data ++ '-' :: (pad2 d.day).data),
      c.isDigit = true ∨ c = '-' := by
    intro c hc
    rcases List.mem_append.mp hc with hc | hc
    · exact hyr c hc
    · rcases List.mem_cons.mp hc with rfl | hc
      · exact Or.inr rfl
      · rcases List.mem_append.mp hc with hc | hc
        · exact hmm c hc
        · rcases List.mem_cons.mp hc with rfl | hc
          · exact Or.inr rfl
          · exact hdd c hc
  have hmain : (applyTokens d "YYYY-MM-DD").data =
      (intToStr d.year).data ++
        '-' :: ((pad2 (d.month.val + 1)).data ++ '-' :: (pad2 d.day).data) := by
    simp only [applyTokens, replaceFirst]
    rw [replaceFirstLSome ['Y', 'Y', 'Y', 'Y'] (intToStr d.year).data
      "YYYY-MM-DD".data [] "-MM-DD".data (by decide)]
    rw [show ([] : List Char) ++ (intToStr d.year).data ++ "-MM-DD".data =
      (intToStr d.year).data ++ "-MM-DD".data from rfl]
    rw [replaceFirstLSkip 'M' ['M', 'M', 'M'] _ _ _
      (fun c hc => notInYMDClass (by decide) (by decide) (hyr c hc))]
    rw [replaceFirstLNone ('M' :: ['M', 'M', 'M']) _ "-MM-DD".data (by decide)]
    rw [replaceFirstLSkip 'M' ['M', 'M'] _ _ _
      (fun c hc => notInYMDClass (by decide) (by decide) (hyr c hc))]
    rw [replaceFirstLNone ('M' :: ['M', 'M']) _ "-MM-DD".data (by decide)]
    rw [replaceFirstLSkip 'M' ['M'] _ _ _
      (fun c hc => notInYMDClass (by decide) (by decide) (hyr c hc))]
    rw [replaceFirstLSome ('M' :: ['M']) (pad2 (d.month.val + 1)).data
      "-MM-DD".data ['-'] "-DD".data (by decide)]
    rw [show ((intToStr d.year).data ++
        (['-'] ++ (pad2 (d.month.val + 1)).data ++ "-DD".data)) =
      ((intToStr d.year).data ++ '-' :: (pad2 (d.month.val + 1)).data) ++
        "-DD".data from by simp]
    rw [replaceFirstLSkip 'd' ['d', 'd', 'd'] _ _ _ (by
      intro c hc
      rcases List.mem_append.mp hc with hc | hc
      · exact notInYMDClass (by decide) (by decide) (hyr c hc)
      · rcases List.mem_cons.mp hc with rfl | hc
        · decide
        · exact notInYMDClass (by decide) (by decide) (hmm c hc))]
    rw [replaceFirstLNone ('d' :: ['d', 'd', 'd']) _ "-DD".data (by decide)]
    rw [replaceFirstLSkip 'D' ['D'] _ _ _ (by
      intro c hc
      rcases List.mem_append.mp hc with hc | hc
      · exact notInYMDClass (by decide) (by decide) (hyr c hc)
      · rcases List.mem_cons.mp hc with rfl | hc
        · decide
        · exact notInYMDClass (by decide) (by decide) (hmm c hc))]
    rw [replaceFirstLSome ('D' :: ['D']) (pad2 d.day).data "-DD".data
      ['-'] [] (by decide)]
    rw [show (((intToStr d.year).data ++ '-' :: (pad2 (d.month.val + 1)).data) ++
        (['-'] ++ (pad2 d.day).data ++ [])) =
      (intToStr d.year).data ++
        '-' :: ((pad2 (d.month.val + 1)).data ++ '-' :: (pad2 d.day).data)
      from by simp]
    rw [show ((intToStr d.year).data ++
        '-' :: ((pad2 (d.month.val + 1)).data ++ '-' :: (pad2 d.day).data)) =
      ((intToStr d.year).data ++
        '-' :: ((pad2 (d.month.val + 1)).data ++ '-' :: (pad2 d.day).data)) ++ []
      from by simp]
    rw [replaceFirstLSkip 'H' ['H'] _ _ []
      (fun c hc => notInYMDClass (by decide) (by decide) (hclass c hc))]
    rw [replaceFirstLNone ('H' :: ['H']) _ [] (by decide)]
    rw [replaceFirstLSkip 'm' ['m'] _ _ []
      (fun c hc => notInYMDClass (by decide) (by decide) (hclass c hc))]
    rw [replaceFirstLNone ('m' :: ['m']) _ [] (by decide)]
    rw [replaceFirstLSkip 's' ['s'] _ _ []
      (fun c hc => notInYMDClass (by decide) (by decide) (hclass c hc))]
    rw [replaceFirstLNone ('s' :: ['s']) _ [] (by decide)]
  refine ⟨?_, ?_, ?_, fun fmt => rfl⟩
  · apply strExt
    rw [hmain]
    show _ = ((((intToStr d.year ++ "-") ++ pad2 (d.month.val + 1)) ++ "-") ++
      pad2 d.day).data
    simp [show ∀ a b : String, (a ++ b).data = a.data ++ b.data from fun a b => rfl]
  · rw [List.all_eq_true]
    intro c hc
    rw [hmain] at hc
    rcases hclass c hc with h | h
    · simp [h]
    · simp [h]
  · apply strExt
    simp only [applyTokens, replaceFirst]
    rw [replaceFirstLNone ['Y', 'Y', 'Y', 'Y'] _ "DD DD".data (by decide)]
    rw [replaceFirstLNone ['M', 'M', 'M', 'M'] _ "DD DD".data (by decide)]
    rw [replaceFirstLNone ['M', 'M', 'M'] _ "DD DD".data (by decide)]
    rw [replaceFirstLNone ['M', 'M'] _ "DD DD".data (by decide)]
    rw [replaceFirstLNone ['d', 'd', 'd', 'd'] _ "DD DD".data (by decide)]
    rw [replaceFirstLSome ['D', 'D'] (pad2 d.day).data "DD DD".data
      [] " DD".data (by decide)]
    rw [show (([] : List Char) ++ (pad2 d.day).data ++ " DD".data) =
      (pad2 d.day).data ++ " DD".data from rfl]
    rw [replaceFirstLSkip 'H' ['H'] _ _ _
      (fun c hc => notInYMDClass (by decide) (by decide) (hdd c hc))]
    rw [replaceFirstLNone ('H' :: ['H']) _ " DD".data (by decide)]
    rw [replaceFirstLSkip 'm' ['m'] _ _ _
      (fun c hc => notInYMDClass (by decide) (by decide) (hdd c hc))]
    rw [replaceFirstLNone ('m' :: ['m']) _ " DD".data (by decide)]
    rw [replaceFirstLSkip 's' ['s'] _ _ _
      (fun c hc => notInYMDClass (by decide) (by decide) (hdd c hc))]
    rw [replaceFirstLNone ('s' :: ['s']) _ " DD".data (by decide)]
    show _ = ((pad2 d.day) ++ " DD").data
    simp [show ∀ a b : String, (a ++ b).data = a.data ++ b.data from fun a b => rfl]

/-- The code's indexOf-and-min extraction equals the spec's
earliest-separator prefix rule. -/
theorem extractBookIdLSpec (l : List Char) :
    extractBookIdL l = bookIdBeforeSep l := by
  induction l with
  | nil => rfl
  | cons c rest ih =>
    by_cases hsep : c = '#' ∨ leadsWith ['!', '!'] (c :: rest) = true
    · have hz : bookIdBeforeSep (c :: rest) = [] := by
        unfold bookIdBeforeSep; rw [if_pos hsep]
      rw [hz]
      unfold extractBookIdL
      rcases hsep with h1 | h2
      · subst h1
        have e1 : jsIndexOf ['#'] ('#' :: rest) = some 0 := by
          unfold jsIndexOf
          rw [if_pos (by simp [leadsWith])]
        rw [e1]
        cases e2 : jsIndexOf ['!', '!'] ('#' :: rest) <;> simp
      · have e2 : jsIndexOf ['!', '!'] (c :: rest) = some 0 := by
          unfold jsIndexOf
          rw [if_pos h2]
        rw [e2]
        cases e1 : jsIndexOf ['#'] (c :: rest) <;> simp
    · push_neg at hsep
      obtain ⟨h1, h2⟩ := hsep
      have h2f : leadsWith ['!', '!'] (c :: rest) = false := by
        simpa using h2
      have hz : bookIdBeforeSep (c :: rest) = c :: bookIdBeforeSep rest := by
        show (if c = '#' ∨ leadsWith ['!', '!'] (c :: rest) = true then []
          else c :: bookIdBeforeSep rest) = c :: bookIdBeforeSep rest
        rw [if_neg (not_or.mpr ⟨h1, h2⟩)]
      rw [hz, ← ih]
      have hl1 : leadsWith ['#'] (c :: rest) = false := by
        show (decide ('#' = c) && leadsWith [] rest) = false
        rw [decide_eq_false (fun he => h1 he.symm), Bool.false_and]
      have e1 : jsIndexOf ['#'] (c :: rest) =
          (jsIndexOf ['#'] rest).map (· + 1) := by
        show (if leadsWith ['#'] (c :: rest) = true then some 0
          else (jsIndexOf ['#'] rest).map (· + 1)) = _
        rw [hl1]
        simp
      have e2 : jsIndexOf ['!', '!'] (c :: rest) =
          (jsIndexOf ['!', '!'] rest).map (· + 1) := by
        show (if leadsWith ['!', '!'] (c :: rest) = true then some 0
          else (jsIndexOf ['!', '!'] rest).map (· + 1)) = _
        rw [h2f]
        simp
      unfold extractBookIdL
      rw [e1, e2]
      cases jsIndexOf ['#'] rest <;> cases jsIndexOf ['!', '!'] rest <;>
        simp [Nat.succ_min_succ, List.take_succ_cons]

/-- Folding the chapter list into the table, observed at one key, is the
fold of `bumpChapter` over that book's entries, in order. -/
theorem getBookChapterDataFold (chapters : List ChapterInfo)
    (m : String → Option Int) (bid : String) :
    (chapters.foldl insertChapter m) bid =
      (chapters.filter
        (fun ch => extractBookIdFromChapterId ch.ContentID = bid)).foldl
        bumpChapter (m bid) := by
  induction chapters generalizing m with
  | nil => rfl
  | cons ch rest ih =>
    rw [List.foldl_cons, ih]
    by_cases h : extractBookIdFromChapterId ch.ContentID = bid
    · rw [List.filter_cons_of_pos (by simpa using h), List.foldl_cons]
      congr 1
      show (if bid = extractBookIdFromChapterId ch.ContentID
        then some (max ((m (extractBookIdFromChapterId ch.ContentID)).getD 0)
          (ch.VolumeIndex + 1)) else m bid) = bumpChapter (m bid) ch
      rw [if_pos h.symm, h, bumpChapter]
    · rw [List.filter_cons_of_neg (by simpa using h)]
      congr 1
      show (if bid = extractBookIdFromChapterId ch.ContentID
        then some (max ((m (extractBookIdFromChapterId ch.ContentID)).getD 0)
          (ch.VolumeIndex + 1)) else m bid) = m bid
      rw [if_neg (fun he => h he.symm)]

/-- A fold of `bumpChapter` started from a present cell stays present. -/
theorem foldBumpIsSome (l : List ChapterInfo) :
    ∀ s : Int, ∃ u : Int, l.foldl bumpChapter (some s) = some u := by
  induction l with
  | nil => intro s; exact ⟨s, rfl⟩
  | cons ch rest ih =>
    intro s
    rw [List.foldl_cons]
    exact ih _

/-- Bounds of a `bumpChapter` fold: the result dominates the start (0 for an
absent start) and every entry's `VolumeIndex + 1`, and equals one of them. -/
theorem foldBumpBounds (l : List ChapterInfo) :
    ∀ (a : Option Int) (t : Int), l.foldl bumpChapter a = some t →
      a.getD 0 ≤ t ∧ (∀ ch ∈ l, ch.VolumeIndex + 1 ≤ t) ∧
      (t = a.getD 0 ∨ ∃ ch ∈ l, t = ch.VolumeIndex + 1) := by
  induction l with
  | nil =>
    intro a t ht
    rw [List.foldl_nil] at ht
    subst ht
    exact ⟨le_refl t, by simp, Or.inl rfl⟩
  | cons ch rest ih =>
    intro a t ht
    rw [List.foldl_cons] at ht
    obtain ⟨h1, h2, h3⟩ := ih (bumpChapter a ch) t ht
    have hb : (bumpChapter a ch).getD 0 = max (a.getD 0) (ch.VolumeIndex + 1) :=
      rfl
    rw [hb] at h1 h3
    refine ⟨le_trans (le_max_left _ _) h1, ?_, ?_⟩
    · intro x hx
      rcases List.mem_cons.mp hx with rfl | hx
      · exact le_trans (le_max_right _ _) h1
      · exact h2 x hx
    · rcases h3 with h3 | ⟨x, hx, hxx⟩
      · rcases max_choice (a.getD 0) (ch.VolumeIndex + 1) with hm | hm
        · exact Or.inl (h3.trans hm)
        · exact Or.inr ⟨ch, List.mem_cons_self _ _, h3.trans hm⟩
      · exact Or.inr ⟨x, List.mem_cons_of_mem _ hx, hxx⟩

/-- C5 counterexample: a single chapter entry with index `-2` makes the
table map its book to `0`, while one plus the maximum observed index would
be `-1`. -/
theorem chapter_table_negative_index_cex :
    getBookChapterData [⟨"b", -2⟩] "b" = some 0 ∧ ((-2 : ℤ) + 1 ≠ 0) :=
  ⟨by decide, by decide⟩

/-- C5 (amended): the chapter table maps exactly the book identifiers that
occur among the entries (each obtained as the prefix before the earliest
`#` or `!!`, or the full identifier), and maps each to the maximum of zero
and one plus the maximum chapter index observed among that book's entries —
expressed here as: the value is nonnegative, dominates every such entry's
index plus one, and is zero or one of those values. -/
theorem chapter_table_characterization (chapters : List ChapterInfo)
    (bid : String) :
    (∀ id : String,
      extractBookIdFromChapterId id = (⟨bookIdBeforeSep id.data⟩ : String)) ∧
    (getBookChapterData chapters bid = none ↔
      ∀ ch ∈ chapters, extractBookIdFromChapterId ch.ContentID ≠ bid) ∧
    (∀ t : ℤ, getBookChapterData chapters bid = some t →
      0 ≤ t ∧
      (∀ ch ∈ chapters, extractBookIdFromChapterId ch.ContentID = bid →
        ch.VolumeIndex + 1 ≤ t) ∧
      (t = 0 ∨ ∃ ch ∈ chapters,
        extractBookIdFromChapterId ch.ContentID = bid ∧
        t = ch.VolumeIndex + 1)) := by
  refine ⟨?_, ?_, ?_⟩
  · intro id
    exact strExt _ _ (extractBookIdLSpec id.data)
  · rw [show getBookChapterData chapters bid =
      (chapters.filter
        (fun ch => extractBookIdFromChapterId ch.ContentID = bid)).foldl
        bumpChapter none from getBookChapterDataFold chapters _ bid]
    constructor
    · intro hnone a ha heq
      have hmem : a ∈ chapters.filter
          (fun ch => extractBookIdFromChapterId ch.ContentID = bid) :=
        List.mem_filter.mpr ⟨ha, by simpa using heq⟩
      cases hfil : chapters.filter
          (fun ch => extractBookIdFromChapterId ch.ContentID = bid) with
      | nil => rw [hfil] at hmem; cases hmem
      | cons x xs =>
        rw [hfil, List.foldl_cons] at hnone
        rw [show bumpChapter none x =
          some (max ((none : Option Int).getD 0) (x.VolumeIndex + 1))
          from rfl] at hnone
        obtain ⟨u, hu⟩ := foldBumpIsSome xs
          (max ((none : Option Int).getD 0) (x.VolumeIndex + 1))
        rw [hu] at hnone
        cases hnone
    · intro hall
      have hfil : chapters.filter
          (fun ch => extractBookIdFromChapterId ch.ContentID = bid) = [] := by
        rw [List.filter_eq_nil_iff]
        intro a ha
        simpa using hall a ha
      rw [hfil]
      rfl
  · intro t ht
    rw [show getBookChapterData chapters bid =
      (chapters.filter
        (fun ch => extractBookIdFromChapterId ch.ContentID = bid)).foldl
        bumpChapter none from getBookChapterDataFold chapters _ bid] at ht
    obtain ⟨h1, h2, h3⟩ := foldBumpBounds _ none t ht
    refine ⟨h1, ?_, ?_⟩
    · intro ch hch hcid
      exact h2 ch (List.mem_filter.mpr ⟨hch, by simpa using hcid⟩)
    · rcases h3 with h3 | ⟨ch, hch, hcht⟩
      · exact Or.inl h3
      · obtain ⟨hmem, hdec⟩ := List.mem_filter.mp hch
        exact Or.inr ⟨ch, hmem, by simpa using hdec, hcht⟩

/-- C5 witness: two entries of the same book with indexes 3 and 7 put the
book in the table with value 8, which is nonnegative, dominates 3+1 and 7+1,
and equals 7+1. -/
theorem chapter_table_characterization_witness :
    0 ≤ (8 : ℤ) ∧
    (∀ ch ∈ [(⟨"b#(0)x", 3⟩ : ChapterInfo), ⟨"b#(1)y", 7⟩],
      extractBookIdFromChapterId ch.ContentID = "b" →
      ch.VolumeIndex + 1 ≤ 8) ∧
    ((8 : ℤ) = 0 ∨ ∃ ch ∈ [(⟨"b#(0)x", 3⟩ : ChapterInfo), ⟨"b#(1)y", 7⟩],
      extractBookIdFromChapterId ch.ContentID = "b" ∧
      (8 : ℤ) = ch.VolumeIndex + 1) :=
  (chapter_table_characterization [⟨"b#(0)x", 3⟩, ⟨"b#(1)y", 7⟩] "b").2.2 8
    (by decide)

/-- A word character is never JavaScript whitespace. -/
theorem wordCharNotWs {c : Char} (h : isWordChar c = true) : isJsWs c = false := by
  unfold isWordChar at h
  simp only [Bool.or_eq_true, Bool.and_eq_true, decide_eq_true_eq] at h
  have hn : (97 ≤ c.toNat ∧ c.toNat ≤ 122) ∨ (65 ≤ c.toNat ∧ c.toNat ≤ 90) ∨
      (48 ≤ c.toNat ∧ c.toNat ≤ 57) ∨ c.toNat = 95 := by
    rcases h with ((⟨h1, h2⟩ | ⟨h1, h2⟩) | ⟨h1, h2⟩) | h1
    · exact Or.inl ⟨h1, h2⟩
    · exact Or.inr (Or.inl ⟨h1, h2⟩)
    · exact Or.inr (Or.inr (Or.inl ⟨h1, h2⟩))
    · subst h1; exact Or.inr (Or.inr (Or.inr rfl))
  rw [Bool.eq_false_iff]
  intro hws
  unfold isJsWs at hws
  simp only [Bool.or_eq_true, Bool.and_eq_true, decide_eq_true_eq] at hws
  rcases hws with (((((((((((((rfl | rfl) | rfl) | rfl) | h') | h') | h') | h')
    | ⟨h1', h2'⟩) | h') | h') | h') | h') | h') | h'
  · exact absurd hn (by decide)
  · exact absurd hn (by decide)
  · exact absurd hn (by decide)
  · exact absurd hn (by decide)
  all_goals omega

/-- Greedy scans pass unchanged over a block that satisfies the predicate. -/
theorem takeWhileAppendAll (p : Char → Bool) (l r : List Char)
    (hl : ∀ c ∈ l, p c = true) :
    (l ++ r).takeWhile p = l ++ r.takeWhile p ∧
    (l ++ r).dropWhile p = r.dropWhile p := by
  induction l with
  | nil => exact ⟨rfl, rfl⟩
  | cons c rest ih =>
    have hc : p c = true := hl c (by simp)
    obtain ⟨ht, hd⟩ := ih (fun x hx => hl x (by simp [hx]))
    constructor
    · rw [List.cons_append, List.takeWhile_cons, hc]
      simpa using ht
    · rw [List.cons_append, List.dropWhile_cons, hc]
      simpa using hd

/-- The regex engine's `(not\s+)` group always fails on a word-character
variable name: either the name does not start with the letters `not`, or it
does and the mandatory whitespace or name after the group is missing. -/
theorem parseNotBranchNone (a : Char) (name1 R : List Char)
    (hword : ∀ c ∈ a :: name1, isWordChar c = true) :
    parseNotBranch ((a :: name1) ++ (' ' :: '%' :: '}' :: R)) = none := by
  by_cases ha : a = 'n'
  · subst ha
    cases name1 with
    | nil => rfl
    | cons b name2 =>
      by_cases hb : b = 'o'
      · subst hb
        cases name2 with
        | nil => rfl
        | cons c2 name3 =>
          by_cases hc : c2 = 't'
          · subst hc
            cases name3 with
            | nil => rfl
            | cons d name4 =>
              have hd : isJsWs d = false :=
                wordCharNotWs (hword d (by simp))
              simp [parseNotBranch, expectChars, skipWs1, hd]
          · simp [parseNotBranch, expectChars, Ne.symm hc]
      · simp [parseNotBranch, expectChars, Ne.symm hb]
  · simp [parseNotBranch, expectChars, Ne.symm ha]

/-- `\w+` captures exactly a word-character block when what follows starts
with a non-word character. -/
theorem parseNameSpan (a : Char) (name1 R : List Char)
    (hword : ∀ c ∈ a :: name1, isWordChar c = true)
    (hR : R.takeWhile isWordChar = []) :
    parseName ((a :: name1) ++ R) = some (a :: name1, R) := by
  obtain ⟨ht, _⟩ := takeWhileAppendAll isWordChar (a :: name1) R hword
  unfold parseName
  rw [ht, hR, List.append_nil]
  simp [List.drop_left]

/-- The conditional header without `not` parses to the un-negated form. -/
theorem parseIfHeaderSpan (a : Char) (name1 R : List Char)
    (hword : ∀ c ∈ a :: name1, isWordChar c = true) :
    parseIfHeaderAt ('{' :: '%' :: ' ' :: 'i' :: 'f' :: ' ' ::
      ((a :: name1) ++ (' ' :: '%' :: '}' :: R))) =
      some (false, (⟨a :: name1⟩ : String), R) := by
  have ha : isJsWs a = false := wordCharNotWs (hword a (by simp))
  have hT : ((a :: name1) ++ (' ' :: '%' :: '}' :: R)).dropWhile isJsWs =
      (a :: name1) ++ (' ' :: '%' :: '}' :: R) := by
    rw [List.cons_append, List.dropWhile_cons, ha]
    simp
  have hname : parseName ((a :: name1) ++ (' ' :: '%' :: '}' :: R)) =
      some (a :: name1, ' ' :: '%' :: '}' :: R) :=
    parseNameSpan a name1 _ hword rfl
  simp [parseIfHeaderAt, expectChars, skipWs, skipWs1, hT, hname, ha,
    parseNotBranchNone a name1 R hword,
    show isJsWs ' ' = true from rfl,
    show isJsWs 'i' = false from rfl,
    show isJsWs '%' = false from rfl]
  rw [show (a :: (name1 ++ (' ' :: '%' :: '}' :: R))) =
    ((a :: name1) ++ (' ' :: '%' :: '}' :: R)) from rfl]
  rw [parseNotBranchNone a name1 R hword]
  rw [hname]
  simp [expectChars,
    show List.dropWhile isJsWs (' ' :: '%' :: '}' :: R) = '%' :: '}' :: R from rfl]

/-- The `(not\s+)` group succeeds on a literal `not` followed by whitespace
and a word-character name up to `%}`. -/
theorem parseNotBranchSpan (a : Char) (name1 R : List Char)
    (hword : ∀ c ∈ a :: name1, isWordChar c = true) :
    parseNotBranch ('n' :: 'o' :: 't' :: ' ' ::
      ((a :: name1) ++ (' ' :: '%' :: '}' :: R))) =
      some ((⟨a :: name1⟩ : String), R) := by
  have ha : isJsWs a = false := wordCharNotWs (hword a (by simp))
  have hname : parseName ((a :: name1) ++ (' ' :: '%' :: '}' :: R)) =
      some (a :: name1, ' ' :: '%' :: '}' :: R) :=
    parseNameSpan a name1 _ hword rfl
  simp [parseNotBranch, expectChars, skipWs1, skipWs, ha,
    show isJsWs ' ' = true from rfl]
  rw [show (a :: (name1 ++ (' ' :: '%' :: '}' :: R))) =
    ((a :: name1) ++ (' ' :: '%' :: '}' :: R)) from rfl]
  rw [hname]
  simp [expectChars,
    show List.dropWhile isJsWs (' ' :: '%' :: '}' :: R) = '%' :: '}' :: R from rfl]

/-- The conditional header with `not` parses to the negated form. -/
theorem parseIfHeaderNotSpan (a : Char) (name1 R : List Char)
    (hword : ∀ c ∈ a :: name1, isWordChar c = true) :
    parseIfHeaderAt ('{' :: '%' :: ' ' :: 'i' :: 'f' :: ' ' ::
      'n' :: 'o' :: 't' :: ' ' :: ((a :: name1) ++ (' ' :: '%' :: '}' :: R))) =
      some (true, (⟨a :: name1⟩ : String), R) := by
  simp [parseIfHeaderAt, expectChars, skipWs, skipWs1,
    show isJsWs ' ' = true from rfl, show isJsWs 'i' = false from rfl,
    show isJsWs 'n' = false from rfl]
  rw [show ('n' :: 'o' :: 't' :: ' ' :: (a :: (name1 ++ (' ' :: '%' :: '}' :: R)))) =
    ('n' :: 'o' :: 't' :: ' ' :: ((a :: name1) ++ (' ' :: '%' :: '}' :: R))) from rfl]
  rw [parseNotBranchSpan a name1 R hword]

/-- The lazy content scan runs to the closing marker when the body contains
no opening brace. -/
theorem findEndifSpan (body : List Char) (hbody : ∀ c ∈ body, c ≠ '{') :
    findEndif (body ++ ('{' :: '%' :: ' ' :: 'e' :: 'n' :: 'd' :: 'i' :: 'f' ::
      ' ' :: '%' :: '}' :: [])) = some (body, []) := by
  induction body with
  | nil => rfl
  | cons c rest ih =>
    have hc : c ≠ '{' := hbody c (by simp)
    have hpe : parseEndifAt (c :: (rest ++ ('{' :: '%' :: ' ' :: 'e' :: 'n' ::
        'd' :: 'i' :: 'f' :: ' ' :: '%' :: '}' :: []))) = none := by
      simp [parseEndifAt, expectChars, Ne.symm hc]
    rw [List.cons_append]
    simp only [findEndif]
    rw [hpe, ih (fun x hx => hbody x (by simp [hx]))]
    rfl

theorem condScanNil (ctx : Ctx) (fuel : Nat) : condScan ctx fuel [] = [] := by
  cases fuel <;> rfl

theorem strDataAppend (a b : String) : (a ++ b).data = a.data ++ b.data := by
  cases a; cases b; rfl

/-- A whole un-negated conditional span matches as one span with the body as
its content. -/
theorem matchCondSpan (a : Char) (name1 body : List Char)
    (hword : ∀ c ∈ a :: name1, isWordChar c = true)
    (hbody : ∀ c ∈ body, c ≠ '{') :
    matchCondAt ('{' :: '%' :: ' ' :: 'i' :: 'f' :: ' ' ::
      ((a :: name1) ++ (' ' :: '%' :: '}' ::
        (body ++ ('{' :: '%' :: ' ' :: 'e' :: 'n' :: 'd' :: 'i' :: 'f' ::
          ' ' :: '%' :: '}' :: []))))) =
      some (false, (⟨a :: name1⟩ : String), body, []) := by
  unfold matchCondAt
  rw [parseIfHeaderSpan a name1 _ hword]
  simp [findEndifSpan body hbody]

/-- A whole negated conditional span matches as one span with the body as
its content. -/
theorem matchCondNotSpan (a : Char) (name1 body : List Char)
    (hword : ∀ c ∈ a :: name1, isWordChar c = true)
    (hbody : ∀ c ∈ body, c ≠ '{') :
    matchCondAt ('{' :: '%' :: ' ' :: 'i' :: 'f' :: ' ' ::
      'n' :: 'o' :: 't' :: ' ' :: ((a :: name1) ++ (' ' :: '%' :: '}' ::
        (body ++ ('{' :: '%' :: ' ' :: 'e' :: 'n' :: 'd' :: 'i' :: 'f' ::
          ' ' :: '%' :: '}' :: []))))) =
      some (true, (⟨a :: name1⟩ : String), body, []) := by
  unfold matchCondAt
  rw [parseIfHeaderNotSpan a name1 _ hword]
  simp [findEndifSpan body hbody]

/-- An un-negated conditional span renders its body exactly when the
variable is truthy. -/
theorem condSpanPos (name body : String) (ctx : Ctx)
    (hne : name.data ≠ [])
    (hword : ∀ c ∈ name.data, isWordChar c = true)
    (hbody : ∀ c ∈ body.data, c ≠ '{') :
    processConditionals
      ("\x7b% if " ++ name ++ " %\x7d" ++ body ++ "\x7b% endif %\x7d") ctx =
      (if hasValue (ctx name) then body else "") := by
  obtain ⟨a, name1, hdata⟩ : ∃ a name1, name.data = a :: name1 := by
    cases hh : name.data with
    | nil => exact absurd hh hne
    | cons x xs => exact ⟨x, xs, rfl⟩
  have htem : ("\x7b% if " ++ name ++ " %\x7d" ++ body ++
      "\x7b% endif %\x7d").data =
      '{' :: '%' :: ' ' :: 'i' :: 'f' :: ' ' ::
      ((a :: name1) ++ (' ' :: '%' :: '}' ::
        (body.data ++ ('{' :: '%' :: ' ' :: 'e' :: 'n' :: 'd' :: 'i' :: 'f' ::
          ' ' :: '%' :: '}' :: [])))) := by
    simp [strDataAppend, hdata]
  have hm := matchCondSpan a name1 body.data (hdata ▸ hword) hbody
  have hnm : (⟨a :: name1⟩ : String) = name := by
    apply strExt; rw [hdata]
  unfold processConditionals
  rw [htem]
  simp only [List.length_cons]
  simp only [condScan]
  rw [hm, hnm]
  by_cases hv : hasValue (ctx name)
  · simp [hv, condScanNil]
  · simp [hv, condScanNil]

/-- A negated conditional span renders its body exactly when the variable is
falsy. -/
theorem condSpanNeg (name body : String) (ctx : Ctx)
    (hne : name.data ≠ [])
    (hword : ∀ c ∈ name.data, isWordChar c = true)
    (hbody : ∀ c ∈ body.data, c ≠ '{') :
    processConditionals
      ("\x7b% if not " ++ name ++ " %\x7d" ++ body ++ "\x7b% endif %\x7d") ctx =
      (if hasValue (ctx name) then "" else body) := by
  obtain ⟨a, name1, hdata⟩ : ∃ a name1, name.data = a :: name1 := by
    cases hh : name.data with
    | nil => exact absurd hh hne
    | cons x xs => exact ⟨x, xs, rfl⟩
  have htem : ("\x7b% if not " ++ name ++ " %\x7d" ++ body ++
      "\x7b% endif %\x7d").data =
      '{' :: '%' :: ' ' :: 'i' :: 'f' :: ' ' :: 'n' :: 'o' :: 't' :: ' ' ::
      ((a :: name1) ++ (' ' :: '%' :: '}' ::
        (body.data ++ ('{' :: '%' :: ' ' :: 'e' :: 'n' :: 'd' :: 'i' :: 'f' ::
          ' ' :: '%' :: '}' :: [])))) := by
    simp [strDataAppend, hdata]
  have hm := matchCondNotSpan a name1 body.data (hdata ▸ hword) hbody
  have hnm : (⟨a :: name1⟩ : String) = name := by
    apply strExt; rw [hdata]
  unfold processConditionals
  rw [htem]
  simp only [List.length_cons]
  simp only [condScan]
  rw [hm, hnm]
  by_cases hv : hasValue (ctx name)
  · simp [hv, condScanNil]
  · simp [hv, condScanNil]

/-- The conditional pass reads the context only through truthiness. -/
theorem condScanInv (c1 c2 : Ctx)
    (h : ∀ n : String, hasValue (c1 n) = hasValue (c2 n)) :
    ∀ (fuel : Nat) (s : List Char), condScan c1 fuel s = condScan c2 fuel s := by
  intro fuel
  induction fuel with
  | zero => intro s; rfl
  | succ fuel ih =>
    intro s
    cases s with
    | nil => rfl
    | cons c rest =>
      simp only [condScan]
      cases hm : matchCondAt (c :: rest) with
      | none => simp only [hm]; rw [ih]
      | some r =>
        obtain ⟨neg, nm, body, after⟩ := r
        simp only [hm, h nm]
        rw [ih]

/-- C6: in the conditional pass, a variable is truthy iff its value is
present, not null, not the empty string and not the number 0; an un-negated
span is replaced by its inner content exactly when the variable is truthy
and removed entirely otherwise; `if not` inverts this; two contexts that
agree on truthiness everywhere render every template identically — so a
context with progress = 0 and one where progress is absent both render the
progress span as empty. -/
theorem conditional_pass_semantics :
    (∀ v : Option Value, hasValue v = true ↔
      (v ≠ none ∧ v ≠ some (.vStr "") ∧ v ≠ some (.vNum 0))) ∧
    (∀ (name body : String) (ctx : Ctx), name.data ≠ [] →
      (∀ c ∈ name.data, isWordChar c = true) →
      (∀ c ∈ body.data, c ≠ '{') →
      processConditionals
        ("\x7b% if " ++ name ++ " %\x7d" ++ body ++ "\x7b% endif %\x7d") ctx =
        (if hasValue (ctx name) then body else "") ∧
      processConditionals
        ("\x7b% if not " ++ name ++ " %\x7d" ++ body ++ "\x7b% endif %\x7d")
        ctx = (if hasValue (ctx name) then "" else body)) ∧
    (∀ (t : String) (c1 c2 : Ctx),
      (∀ n : String, hasValue (c1 n) = hasValue (c2 n)) →
      processConditionals t c1 = processConditionals t c2) ∧
    (processConditionals "\x7b% if progress %\x7dX\x7b% endif %\x7d"
      ctxProgressZero = "" ∧
     processConditionals "\x7b% if progress %\x7dX\x7b% endif %\x7d"
      ctxEmpty = "") := by
  refine ⟨?_, ?_, ?_, by decide, by decide⟩
  · intro v
    rcases v with _ | v
    · simp [hasValue]
    · rcases v with s | q
      · constructor
        · intro hv
          simp only [hasValue, Bool.not_eq_true'] at hv
          refine ⟨by simp, ?_, by simp⟩
          simp only [ne_eq, Option.some.injEq, Value.vStr.injEq]
          intro he
          rw [he] at hv
          simp at hv
        · rintro ⟨-, h2, -⟩
          simp only [hasValue, Bool.not_eq_true']
          exact decide_eq_false (fun he => h2 (by rw [he]))
      · constructor
        · intro hv
          simp only [hasValue, Bool.not_eq_true'] at hv
          refine ⟨by simp, by simp, ?_⟩
          simp only [ne_eq, Option.some.injEq, Value.vNum.injEq]
          intro he
          rw [he] at hv
          simp at hv
        · rintro ⟨-, -, h3⟩
          simp only [hasValue, Bool.not_eq_true']
          exact decide_eq_false (fun he => h3 (by rw [he]))
  · intro name body ctx hne hword hbody
    exact ⟨condSpanPos name body ctx hne hword hbody,
      condSpanNeg name body ctx hne hword hbody⟩
  · intro t c1 c2 h
    unfold processConditionals
    rw [condScanInv c1 c2 h]

/-- C6 witness: the span semantics at concrete inputs — a truthy `title`
renders the body, its negation removes it, and the progress-zero and
progress-absent contexts render the progress span identically. -/
theorem conditional_pass_semantics_witness :
    processConditionals "\x7b% if title %\x7dX\x7b% endif %\x7d" ctxTitleT
      = "X" ∧
    processConditionals "\x7b% if not title %\x7dX\x7b% endif %\x7d" ctxTitleT
      = "" ∧
    processConditionals "\x7b% if progress %\x7dX\x7b% endif %\x7d"
      ctxProgressZero =
    processConditionals "\x7b% if progress %\x7dX\x7b% endif %\x7d"
      ctxEmpty := by
  refine ⟨?_, ?_, ?_⟩
  · have h := (conditional_pass_semantics.2.1 "title" "X" ctxTitleT
      (by decide) (by decide) (by decide)).1
    have hcat : ("\x7b% if " ++ "title" ++ " %\x7d" ++ "X" ++
      "\x7b% endif %\x7d" : String) =
      "\x7b% if title %\x7dX\x7b% endif %\x7d" := by decide
    rw [hcat] at h
    rw [h]; decide
  · have h := (conditional_pass_semantics.2.1 "title" "X" ctxTitleT
      (by decide) (by decide) (by decide)).2
    have hcat : ("\x7b% if not " ++ "title" ++ " %\x7d" ++ "X" ++
      "\x7b% endif %\x7d" : String) =
      "\x7b% if not title %\x7dX\x7b% endif %\x7d" := by decide
    rw [hcat] at h
    rw [h]; decide
  · exact conditional_pass_semantics.2.2.1 _ ctxProgressZero ctxEmpty
      (by
        intro n
        by_cases h : n = "progress"
        · subst h; decide
        · simp [ctxProgressZero, ctxEmpty, h])

/-- Every highlight in the map after a push is an old one or the pushed
highlight. -/
theorem pushOrigin (k : String) (hnew : ProcessedHighlight) :
    ∀ (m : List BookEntry), ∀ e ∈ pushToEntry k hnew m, ∀ x ∈ e.2.2,
      (∃ e0 ∈ m, x ∈ e0.2.2) ∨ x = hnew := by
  intro m
  induction m with
  | nil => simp [pushToEntry]
  | cons e0 rest ih =>
    obtain ⟨k0, b0, hs0⟩ := e0
    intro e he x hx
    unfold pushToEntry at he
    by_cases hk : k0 = k
    · rw [if_pos hk] at he
      rcases List.mem_cons.mp he with rfl | he
      · rcases List.mem_append.mp hx with hx | hx
        · exact Or.inl ⟨(k0, b0, hs0), by simp, hx⟩
        · rcases List.mem_singleton.mp hx with rfl
          exact Or.inr rfl
      · exact Or.inl ⟨e, List.mem_cons_of_mem _ he, hx⟩
    · rw [if_neg hk] at he
      rcases List.mem_cons.mp he with rfl | he
      · exact Or.inl ⟨(k0, b0, hs0), by simp, hx⟩
      · rcases ih e he x hx with ⟨e1, he1, hx1⟩ | hx1
        · exact Or.inl ⟨e1, List.mem_cons_of_mem _ he1, hx1⟩
        · exact Or.inr hx1

/-- Every highlight after one bookmark step is an old one or carries the
date computed from that bookmark. -/
theorem stepOrigin (parse : String → Option JSDate) (now : JSDate)
    (cidx : String → Option KoboContent) (m : List BookEntry)
    (bm : KoboBookmark) :
    ∀ e ∈ stepBookmark parse now cidx m bm, ∀ x ∈ e.2.2,
      (∃ e0 ∈ m, x ∈ e0.2.2) ∨
      x.createdAt = parseKoboDate parse now
        (jsStrOr bm.DateCreated bm.DateModified) := by
  intro e he x hx
  by_cases hskip : normalizeText (bm.Text.getD "") = "" ∧
      bm.AnnotationText.getD "" = ""
  · have hm : stepBookmark parse now cidx m bm = m := by
      unfold stepBookmark
      rw [if_pos (by simp [hskip.1, hskip.2])]
    rw [hm] at he
    exact Or.inl ⟨e, he, hx⟩
  · have hcond : (decide (normalizeText (bm.Text.getD "") = "") &&
        decide (bm.AnnotationText.getD "" = "")) = false := by
      rcases not_and_or.mp hskip with h | h <;> simp [h]
    have hm : stepBookmark parse now cidx m bm =
        pushToEntry bm.VolumeID
          { bookmarkId := bm.BookmarkID
            text := if normalizeText (bm.Text.getD "") = "" then
              "Placeholder for attached annotation"
              else normalizeText (bm.Text.getD "")
            annot := bm.AnnotationText.getD ""
            createdAt := parseKoboDate parse now
              (jsStrOr bm.DateCreated bm.DateModified)
            chapterProgress := bm.ChapterProgress
            chapterContentId := bm.ContentID }
          (if hasEntry bm.VolumeID m then m
            else m ++ [(bm.VolumeID, cidx bm.VolumeID, [])]) := by
      unfold stepBookmark
      simp only [hcond]
      simp
    rw [hm] at he
    rcases pushOrigin bm.VolumeID _ _ e he x hx with ⟨e1, he1, hx1⟩ | hx1
    · by_cases hhas : hasEntry bm.VolumeID m = true
      · rw [if_pos hhas] at he1
        exact Or.inl ⟨e1, he1, hx1⟩
      · rw [if_neg hhas] at he1
        rcases List.mem_append.mp he1 with he1 | he1
        · exact Or.inl ⟨e1, he1, hx1⟩
        · rcases List.mem_singleton.mp he1 with rfl
          cases hx1
    · subst hx1
      exact Or.inr rfl

/-- Every highlight in the folded book map is an initial one or carries the
date computed from one of the folded bookmarks. -/
theorem foldOrigin (parse : String → Option JSDate) (now : JSDate)
    (cidx : String → Option KoboContent) :
    ∀ (bms : List KoboBookmark) (m : List BookEntry),
      ∀ e ∈ bms.foldl (stepBookmark parse now cidx) m, ∀ x ∈ e.2.2,
        (∃ e0 ∈ m, x ∈ e0.2.2) ∨
        ∃ bm ∈ bms, x.createdAt = parseKoboDate parse now
          (jsStrOr bm.DateCreated bm.DateModified) := by
  intro bms
  induction bms with
  | nil =>
    intro m e he x hx
    exact Or.inl ⟨e, he, hx⟩
  | cons bm rest ih =>
    intro m e he x hx
    rw [List.foldl_cons] at he
    rcases ih (stepBookmark parse now cidx m bm) e he x hx with
      ⟨e1, he1, hx1⟩ | ⟨bm1, hbm1, hx1⟩
    · rcases stepOrigin parse now cidx m bm e1 he1 x hx1 with
        ⟨e0, he0, hx0⟩ | hx0
      · exact Or.inl ⟨e0, he0, hx0⟩
      · exact Or.inr ⟨bm, by simp, hx0⟩
    · exact Or.inr ⟨bm1, List.mem_cons_of_mem _ hbm1, hx1⟩

/-- Metadata resolution leaves an entry's highlight list untouched. -/
theorem entryToBookHighlights (pf : String → ℚ) (et : String → String)
    (e : BookEntry) : (entryToBook pf et e).highlights = e.2.2 := by
  obtain ⟨v, b, hs⟩ := e
  rfl

/-- C10: every processed highlight kept by the aggregator carries a
creation date obtained by `parseKoboDate` from its bookmark's `DateCreated`
with `DateModified` as the `||` fallback, and `parseKoboDate` silently
returns the current time — never an error and never an absent value — when
the input is absent, empty, or fails to parse as a valid date. -/
theorem processed_highlight_date_origin (parse : String → Option JSDate)
    (now : JSDate) (pf : String → ℚ) (extractTitle : String → String)
    (cmp : String → String → Int) (bookmarks : List KoboBookmark)
    (contentIndex : String → Option KoboContent) :
    (∀ bw ∈ processHighlights parse now pf extractTitle cmp bookmarks
        contentIndex,
      ∀ h ∈ bw.highlights, ∃ bm ∈ bookmarks,
        h.createdAt = parseKoboDate parse now
          (jsStrOr bm.DateCreated bm.DateModified)) ∧
    parseKoboDate parse now none = now ∧
    parseKoboDate parse now (some "") = now ∧
    (∀ s : String, parse s = none → parseKoboDate parse now (some s) = now) := by
  refine ⟨?_, rfl, rfl, ?_⟩
  · intro bw hbw h hh
    unfold processHighlights at hbw
    rw [List.mem_mergeSort] at hbw
    obtain ⟨e, he, rfl⟩ := List.mem_map.mp hbw
    rw [entryToBookHighlights] at hh
    rcases foldOrigin parse now contentIndex bookmarks [] e he h hh with
      ⟨e0, he0, _⟩ | h2
    · cases he0
    · exact h2
  · intro s hs
    by_cases h : s = "" <;> simp [parseKoboDate, h, hs]

/-- C10 witness: a bookmark with text and no timestamps is kept and its
processed highlight's creation date is the current time. -/
theorem processed_highlight_date_origin_witness :
    ∃ bm ∈ [bmFix], hlFix.createdAt =
      parseKoboDate pdNone dateFix (jsStrOr bm.DateCreated bm.DateModified) := by
  have h := (processed_highlight_date_origin pdNone dateFix pf0 et0 cmp0
    [bmFix] (fun _ => none)).1
  have hL : processHighlights pdNone dateFix pf0 et0 cmp0 [bmFix]
      (fun _ => none) =
      ([entryToBook pf0 et0 ("v", none, [hlFix])]).mergeSort
        (fun a b => cmp0 a.book.title b.book.title ≤ 0) := rfl
  refine h (entryToBook pf0 et0 ("v", none, [hlFix])) ?_ hlFix ?_
  · rw [hL, List.mem_mergeSort]
    simp
  · rw [entryToBookHighlights]
    simp

end KoboSpec
